import Mathlib

/-!
Verification of the job-orchestration core of `docker-mirrors-pravite-manager`
(`app/sync_jobs.py`, with its callers in `app/main.py` and settings in
`app/config.py`), against the repository's natural-language specification.

Modelling conventions:
* Python strings are Lean `String`s; where character-level reasoning is needed
  (the `_apply_prefix` transforms) the corresponding operations are defined on
  `List Char` and lifted.
* Machine-generated inputs (uuid job ids, wall-clock timestamps, the host
  architecture probe, registry HTTP responses, external process exit codes and
  their streamed output) are passed as explicit parameters/oracles.
* The wall-clock fields `created_at`/`updated_at` of a job are pure timestamp
  bookkeeping with no claim depending on them; they are elided from the record.
* Store mutation is modelled by explicit state passing: every Python method
  that mutates `SyncJobManager` becomes a function `ManagerState → ... →
  ManagerState`.  Methods that can raise `ValueError` return the (unchanged)
  state together with `Except String ...`, mirroring the fact that the Python
  code performs all validation before its first store mutation.
-/

/-! ## Generic list utilities -/

/-- Keep the most recent (last) `n` elements of a list. -/
def keepLast (n : Nat) (l : List α) : List α :=
  l.drop (l.length - n)

/-- First-occurrence deduplication, as Python's `dict.fromkeys(...)` (used by
`_wait_then_cleanup_registry_source_tags` on its target list). -/
def dedupFirst [DecidableEq α] : List α → List α → List α
  | _, [] => []
  | seen, x :: xs =>
      if x ∈ seen then dedupFirst seen xs
      else x :: dedupFirst (x :: seen) xs

/-! ## Character-level string helpers (Python `str.strip(c)`, `str.rstrip(c)`) -/

/-- Python `s.strip("/")` on the character list of `s`: drop leading and
trailing occurrences of `c`. -/
def stripChar (c : Char) (s : List Char) : List Char :=
  ((s.dropWhile (· = c)).reverse.dropWhile (· = c)).reverse

/-- Python `s.rstrip(c)`: drop trailing occurrences of `c`. -/
def rstripChar (c : Char) (s : List Char) : List Char :=
  (s.reverse.dropWhile (· = c)).reverse

/-- `str.strip("/")` lifted to `String`. -/
def stripSlashes (s : String) : String :=
  String.mk (stripChar '/' s.data)

/-- `str.rstrip("/")` lifted to `String`. -/
def rstripSlashes (s : String) : String :=
  String.mk (rstripChar '/' s.data)

/-! ## The Job record (`SyncJob` dataclass, sync_jobs.py lines 92-117) -/

/-- `SyncJob` from sync_jobs.py (lines 92-103).  The wall-clock fields
`created_at` / `updated_at` are elided (see the module docstring). -/
structure SyncJob where
  id : String
  source_image : String
  target_image : String
  job_type : String := "mirror"
  total_items : Nat := 1
  status : String := "running"
  logs : List String := []
  error : Option String := none
deriving Repr, DecidableEq

/-! ## Manager state (`SyncJobManager.__init__`, lines 120-131)

Besides the Python fields (`registry_push_host`, `registry_api_url`,
`retention`, `_jobs`), the state records which detached worker threads have
been started: `runners` holds one entry per `_run_commands_job` thread
(job id, command plan, continue_on_error) and `cleaners` one entry per
`_wait_then_cleanup_registry_source_tags` thread (job id, cleanup targets).
The `_jobs` OrderedDict is an insertion-ordered association list. -/
structure ManagerState where
  registry_push_host : String
  registry_api_url : String
  retention : Int
  jobs : List (String × SyncJob)
  runners : List (String × List (List String) × Bool)
  cleaners : List (String × List (String × String))
deriving Repr, DecidableEq

/-- `SyncJobManager.__init__` (lines 121-131): hosts are `rstrip("/")`-ed,
`registry_api_url` defaults to `""` when absent, and
`self.retention = max(retention, 20)`. -/
def mkManager (registry_push_host : String) (registry_api_url : Option String)
    (retention : Int) : ManagerState :=
  { registry_push_host := rstripSlashes registry_push_host
    registry_api_url := rstripSlashes (registry_api_url.getD "")
    retention := max retention 20
    jobs := []
    runners := []
    cleaners := [] }

/-! ## Job Store primitives (lines 433-467) -/

/-- First-key lookup in the insertion-ordered association list (the
`OrderedDict.get` of `get_job` / `_update_job_status` / `_append_log`). -/
def lookupJob : List (String × SyncJob) → String → Option SyncJob
  | [], _ => none
  | p :: tl, id => if p.1 = id then some p.2 else lookupJob tl id

/-- Status of a stored job, if present. -/
def statusOf (m : ManagerState) (id : String) : Option String :=
  (lookupJob m.jobs id).map (·.status)

/-- `OrderedDict` assignment `self._jobs[job.id] = job` (line 445): replace in
place when the key is present (an `OrderedDict` keeps the original position),
otherwise append at the end. -/
def odSet (l : List (String × SyncJob)) (id : String) (job : SyncJob) :
    List (String × SyncJob) :=
  if l.any (fun p => p.1 = id) then
    l.map (fun p => if p.1 = id then (p.1, job) else p)
  else l ++ [(id, job)]

/-- `while len(self._jobs) > self.retention: self._jobs.popitem(last=False)`
(lines 446-447): repeatedly drop the oldest entry. -/
def evictLoop (retention : Int) : List (String × SyncJob) → List (String × SyncJob)
  | [] => []
  | p :: tl =>
      if retention < ((p :: tl).length : Int) then evictLoop retention tl
      else p :: tl

/-- `SyncJobManager._insert_job` (lines 443-447). -/
def insertJob (m : ManagerState) (job : SyncJob) : ManagerState :=
  { m with jobs := evictLoop m.retention (odSet m.jobs job.id job) }

/-- Update the value stored under `id`, keeping every other entry; a no-op if
the id is unknown (the defensive `if not job: return`). -/
def mapUpdate (id : String) (g : SyncJob → SyncJob)
    (l : List (String × SyncJob)) : List (String × SyncJob) :=
  l.map (fun p => if p.1 = id then (p.1, g p.2) else p)

/-- `SyncJobManager._update_job_status` (lines 449-456): sets `status` and
`error` unconditionally when the job exists. -/
def updateJobStatus (m : ManagerState) (id status : String)
    (error : Option String) : ManagerState :=
  { m with jobs := mapUpdate id (fun j => { j with status := status, error := error }) m.jobs }

/-- The log-cap step of `_append_log` (lines 464-466): append one line, then
`if len(job.logs) > 300: del job.logs[:-300]` (keep the most recent 300). -/
def appendCapped (logs : List String) (line : String) : List String :=
  let l := logs ++ [line]
  if 300 < l.length then l.drop (l.length - 300) else l

/-- `SyncJobManager._append_log` (lines 458-467); the wall-clock `%H:%M:%S`
timestamp is the explicit parameter `ts`. -/
def appendLogAt (m : ManagerState) (ts id message : String) : ManagerState :=
  { m with jobs := mapUpdate id (fun j => { j with logs := appendCapped j.logs (ts ++ " " ++ message) }) m.jobs }

/-- Fold `_append_log` over several (timestamp, message) pairs. -/
def appendLogsAt (m : ManagerState) (id : String)
    (lines : List (String × String)) : ManagerState :=
  lines.foldl (fun acc tm => appendLogAt acc tm.1 id tm.2) m

/-- `SyncJobManager._create_and_start_job` (lines 469-486): insert the job,
append the `[init]` log line, and start the detached runner thread. -/
def createAndStartJob (m : ManagerState) (ts : String) (job : SyncJob)
    (commands : List (List String)) (continueOnError : Bool) :
    ManagerState × SyncJob :=
  let m1 := insertJob m job
  let m2 := appendLogAt m1 ts job.id
    ("[init] type=" ++ job.job_type ++ " source=" ++ job.source_image ++
      " target=" ++ job.target_image)
  let m3 := { m2 with runners := m2.runners ++ [(job.id, commands, continueOnError)] }
  (m3, job)

/-! ## Job Runner (`_run_command` lines 592-611, `_run_commands_job` lines 567-590)

External processes are the oracle: each planned command comes with the output
lines it streamed (already `rstrip`-ed, empty lines removed, as lines 604-608
do) and its exit code. -/

/-- One external command invocation as consumed by `_run_command`. -/
structure CmdRun where
  argv : List String
  output : List String
  exitCode : Int
deriving Repr, DecidableEq

/-- `SyncJobManager._run_command` (lines 592-611): appends `[run] <argv>` and
the streamed output lines to the log, then raises
`Command failed (<exit_code>): <joined argv>` when the exit code is non-zero.
Returns the produced log messages and the raised error, if any. -/
def runCommand (c : CmdRun) : List String × Option String :=
  let printable := String.intercalate " " c.argv
  (("[run] " ++ printable) :: c.output,
    if c.exitCode ≠ 0 then
      some ("Command failed (" ++ toString c.exitCode ++ "): " ++ printable)
    else none)

/-- Observable result of `_run_commands_job`: the terminal status and error it
writes through `_update_job_status`, the log messages it appends, and the argv
of every command actually executed. -/
structure RunResult where
  status : String
  error : Option String
  logMsgs : List String
  executed : List (List String)
deriving Repr, DecidableEq

/-- The loop of `_run_commands_job` (lines 573-590): each command is tried;
on failure the count is incremented and `[error] ...` logged; in fail-fast
mode the exception is re-raised and caught by the outer handler, which marks
the job failed with that command's error; otherwise the loop continues and
the final status is `failed` with a count summary iff any command failed. -/
def runCommandsLoop (continueOnError : Bool) :
    List CmdRun → Nat → List String → List (List String) → RunResult
  | [], failures, logs, ex =>
      if 0 < failures then
        { status := "failed"
          error := some (toString failures ++ " command(s) failed")
          logMsgs := logs ++
            ["[done] Job finished with " ++ toString failures ++ " failure(s)."]
          executed := ex }
      else
        { status := "success", error := none
          logMsgs := logs ++ ["[done] Job finished successfully."]
          executed := ex }
  | c :: cs, failures, logs, ex =>
      let pr := runCommand c
      match pr.2 with
      | none => runCommandsLoop continueOnError cs failures (logs ++ pr.1) (ex ++ [c.argv])
      | some e =>
          if continueOnError then
            runCommandsLoop continueOnError cs (failures + 1)
              (logs ++ pr.1 ++ ["[error] " ++ e]) (ex ++ [c.argv])
          else
            { status := "failed", error := some e
              logMsgs := logs ++ pr.1 ++ ["[error] " ++ e]
              executed := ex ++ [c.argv] }

/-- `SyncJobManager._run_commands_job` (lines 567-590). -/
def runCommandsJob (continueOnError : Bool) (plan : List CmdRun) : RunResult :=
  runCommandsLoop continueOnError plan 0 [] []

/-! ## Reference Parser: `_apply_prefix` (sync_jobs.py lines 65-80) -/

/-- `_apply_prefix(repository, prefix_mode, prefix_value)` on character lists:
`base = repository.strip("/")`, `prefix = prefix_value.strip("/")`, then the
mode dispatch exactly as in lines 68-80 (the Python code computes `base` and
`prefix` once up front; they are inlined here). -/
def applyPfx (repository : List Char) (pfxMode : String) (pfxValue : List Char) :
    Except String (List Char) :=
  if stripChar '/' pfxValue = [] ∨ pfxMode = "none" then
    .ok (stripChar '/' repository)
  else if pfxMode = "add" then
    if (stripChar '/' pfxValue ++ ['/']).isPrefixOf (stripChar '/' repository) ∨
        stripChar '/' repository = stripChar '/' pfxValue then
      .ok (stripChar '/' repository)
    else .ok (stripChar '/' pfxValue ++ '/' :: stripChar '/' repository)
  else if pfxMode = "remove" then
    if (stripChar '/' pfxValue ++ ['/']).isPrefixOf (stripChar '/' repository) then
      .ok ((stripChar '/' repository).drop ((stripChar '/' pfxValue).length + 1))
    else if stripChar '/' repository = stripChar '/' pfxValue then .ok []
    else .ok (stripChar '/' repository)
  else .error ("Unsupported prefix mode: " ++ pfxMode)

/-- `_apply_prefix` lifted to `String` (as called by the plan builders). -/
def applyPfxS (repository pfxMode pfxValue : String) : Except String String :=
  (applyPfx repository.data pfxMode pfxValue.data).map String.mk

/-! ## Reference Parser: `_split_source_image` and friends (lines 17-89) -/

/-- Python `str.strip()` (whitespace), on ASCII whitespace (the claims never
hinge on non-ASCII whitespace); implemented on the character list so that it
evaluates by kernel reduction. -/
def pyStrip (s : String) : String :=
  String.mk
    (((s.data.dropWhile Char.isWhitespace).reverse.dropWhile
      Char.isWhitespace).reverse)

/-- Python `str.lower()` (ASCII case folding, as `Char.toLower`). -/
def pyLower (s : String) : String := String.mk (s.data.map Char.toLower)

/-- `_is_registry_component` (lines 21-22). -/
def isRegistryComponent (value : String) : Bool :=
  value.data.contains '.' || value.data.contains ':' || value == "localhost"

/-- Python `s.rsplit(c, 1)` on character lists: split at the last occurrence
of `c`, returning `(before, after)`, or `none` when `c` does not occur. -/
def rsplitOnce (c : Char) (s : List Char) : Option (List Char × List Char) :=
  let t := s.reverse.takeWhile (fun a => ¬(a = c))
  match s.reverse.dropWhile (fun a => ¬(a = c)) with
  | [] => none
  | _ :: before => some (before.reverse, t.reverse)

/-- Python `s.split(c)` on character lists (`"".split(c) == [""]`). -/
def splitOnChar (c : Char) (s : List Char) : List (List Char) :=
  match h : s.dropWhile (fun a => ¬(a = c)) with
  | [] => [s.takeWhile (fun a => ¬(a = c))]
  | _ :: tl => s.takeWhile (fun a => ¬(a = c)) :: splitOnChar c tl
termination_by s.length
decreasing_by
  have hle : (s.dropWhile (fun a => ¬(a = c))).length ≤ s.length :=
    (List.dropWhile_sublist (fun a => ¬(a = c))).length_le
  rw [h] at hle
  simp only [List.length_cons] at hle
  omega

/-- `_split_source_image` (lines 36-62): derive `(target_repo, default_tag)`
from an image reference.  The Python error message interpolates `{image!r}`;
the `repr` quoting is elided here. -/
def splitSourceImage (image : String) : Except String (String × String) :=
  let value := pyStrip image
  if value = "" then .error "source_image cannot be empty."
  else
    let vd := value.data
    let parsed : List Char × List Char :=
      match rsplitOnce '@' vd with
      | some (base_name, digest) =>
        (base_name, digest.map (fun ch => if ch = ':' then '-' else ch))
      | none =>
        let afterSlash := match rsplitOnce '/' vd with
          | some (_, post) => post
          | none => vd
        if afterSlash.contains ':' then
          match rsplitOnce ':' vd with
          | some (base_name, tag) => (base_name, tag)
          | none => (vd, "latest".data)
        else (vd, "latest".data)
    let components := splitOnChar '/' parsed.1
    let target_repo :=
      if 1 < components.length ∧ isRegistryComponent (String.mk (components.headD [])) then
        String.mk (List.intercalate ['/'] components.tail)
      else String.mk parsed.1
    if target_repo = "" then
      .error ("Cannot derive target repository from " ++ image ++ ".")
    else .ok (target_repo, String.mk parsed.2)

/-- `detect_arch_label` (lines 25-33); `machineRaw` is the host architecture
probe (`platform.machine()`, or the explicit `raw` argument). -/
def detectArchLabel (machineRaw : String) : String :=
  let machine := pyLower (pyStrip machineRaw)
  if machine = "x86_64" ∨ machine = "amd64" ∨ machine = "x64" then "x86"
  else if machine = "aarch64" ∨ machine = "arm64" then "arm"
  else if "arm".data.isPrefixOf machine.data then "arm"
  else if machine = "" then "unknown"
  else machine

/-- `_infer_pull_platform` (lines 83-89). -/
def inferPullPlatform (repository tag : String) : Option String :=
  let probe := pyLower (repository ++ ":" ++ tag)
  if ("x86".data <:+: probe.data) ∨ ("amd64".data <:+: probe.data) then
    some "linux/amd64"
  else if ("arm64".data <:+: probe.data) ∨ ("aarch64".data <:+: probe.data) then
    some "linux/arm64"
  else none

/-! ## Plan builders and create entry points (lines 133-340)

Each `create_*` method validates, builds the command plan, and only then
mutates the store via `_create_and_start_job`; every `raise ValueError`
happens before the first store mutation, so the error branches return the
input state unchanged.  `ts` is the wall clock, `newId` the uuid, `machineRaw`
the architecture probe and `tagsOf` the registry tag-listing collaborator
(successful responses; a 404 is an empty list, per `_list_registry_tags`). -/

/-- `SyncJobManager.create_job` (lines 133-156). -/
def createJob (m : ManagerState) (ts newId : String) (source_image : String)
    (target_repository target_tag : Option String) :
    ManagerState × Except String SyncJob :=
  match splitSourceImage source_image with
  | .error e => (m, .error e)
  | .ok dflt =>
    let r0 := pyStrip (target_repository.getD "")
    let repository := if r0 = "" then dflt.1 else r0
    let t0 := pyStrip (target_tag.getD "")
    let tag := if t0 = "" then dflt.2 else t0
    let target_image := m.registry_push_host ++ "/" ++ repository ++ ":" ++ tag
    let commands := [["docker", "pull", pyStrip source_image],
                     ["docker", "tag", pyStrip source_image, target_image],
                     ["docker", "push", target_image]]
    let job : SyncJob :=
      { id := newId
        source_image := pyStrip source_image
        target_image := target_image
        job_type := "mirror"
        total_items := 1
        status := "running"
        logs := []
        error := none }
    let res := createAndStartJob m ts job commands false
    (res.1, .ok res.2)

/-- The per-reference loop of `create_local_push_job` (lines 196-217):
returns `(commands, mappings, registry_cleanup_targets)` or the first
validation error. -/
def buildLocalPushPlan (registry_host pfxModeN pfxValue archLabel : String)
    (cleanup_local_tag cleanup_registry_source_tag : Bool) :
    List String →
      Except String (List (List String) × List String × List (String × String))
  | [] => .ok ([], [], [])
  | source_ref :: rest =>
    match splitSourceImage source_ref with
    | .error e => .error e
    | .ok rt =>
      match applyPfxS rt.1 pfxModeN pfxValue with
      | .error e => .error e
      | .ok updated_repo =>
        if updated_repo = "" then
          .error ("Prefix operation removed repository name entirely for " ++
            source_ref ++ ".")
        else
          let target_tag :=
            if archLabel ≠ "" ∧ ¬ ("-" ++ archLabel).data.isSuffixOf rt.2.data then
              rt.2 ++ "-" ++ archLabel
            else rt.2
          let target_ref := registry_host ++ "/" ++ updated_repo ++ ":" ++ target_tag
          let cmds := [["docker", "tag", source_ref, target_ref],
                       ["docker", "push", target_ref]] ++
            (if cleanup_local_tag then [["docker", "image", "rm", source_ref]] else [])
          let tgts := if cleanup_registry_source_tag then [(rt.1, rt.2)] else []
          match buildLocalPushPlan registry_host pfxModeN pfxValue archLabel
            cleanup_local_tag cleanup_registry_source_tag rest with
          | .error e => .error e
          | .ok acc =>
            .ok (cmds ++ acc.1, (source_ref ++ " => " ++ target_ref) :: acc.2.1,
              tgts ++ acc.2.2)

/-- `SyncJobManager.create_local_push_job` (lines 158-249). -/
def createLocalPushJob (m : ManagerState) (ts newId machineRaw : String)
    (image_refs : List String) (pfx_mode pfx_value arch_mode arch_value : String)
    (target_registry_host : Option String)
    (cleanup_local_tag cleanup_registry_source_tag : Bool) :
    ManagerState × Except String SyncJob :=
  let cleaned_refs :=
    (image_refs.filter (fun item => (!(item == "")) && (!(pyStrip item == "")))).map pyStrip
  if cleaned_refs = [] then (m, .error "At least one local image is required.")
  else
    let am0 := pyLower (pyStrip arch_mode)
    let normalized_arch_mode := if am0 = "" then "auto" else am0
    if ¬(normalized_arch_mode = "auto" ∨ normalized_arch_mode = "custom" ∨
        normalized_arch_mode = "none") then
      (m, .error "arch_mode must be one of: auto, custom, none.")
    else
      let pm0 := pyLower (pyStrip pfx_mode)
      let normalized_pfx_mode := if pm0 = "" then "none" else pm0
      if ¬(normalized_pfx_mode = "add" ∨ normalized_pfx_mode = "remove" ∨
          normalized_pfx_mode = "none") then
        (m, .error "prefix_mode must be one of: add, remove, none.")
      else
        let registry_host := rstripSlashes (pyStrip (match target_registry_host with
          | some s => if s = "" then m.registry_push_host else s
          | none => m.registry_push_host))
        if registry_host = "" then (m, .error "target_registry_host cannot be empty.")
        else
          let archRes : Except String String :=
            if normalized_arch_mode = "auto" then .ok (detectArchLabel machineRaw)
            else if normalized_arch_mode = "custom" then
              (let al := (pyStrip arch_value).toLower
               if al = "" then .error "arch_value is required when arch_mode=custom."
               else .ok al)
            else .ok ""
          match archRes with
          | .error e => (m, .error e)
          | .ok arch_label =>
            match buildLocalPushPlan registry_host normalized_pfx_mode pfx_value
              arch_label cleanup_local_tag cleanup_registry_source_tag cleaned_refs with
            | .error e => (m, .error e)
            | .ok plan =>
              let job : SyncJob :=
                { id := newId
                  source_image := toString cleaned_refs.length ++ " local images"
                  target_image := registry_host
                  job_type := "local-push"
                  total_items := cleaned_refs.length
                  status := "running"
                  logs := []
                  error := none }
              let res := createAndStartJob m ts job plan.1 false
              let m2 := appendLogAt res.1 ts res.2.id
                ("[plan] arch_mode=" ++ normalized_arch_mode ++ " arch=" ++
                  (if arch_label = "" then "-" else arch_label) ++
                  " prefix_mode=" ++ normalized_pfx_mode ++ " prefix=" ++
                  (if pfx_value = "" then "-" else pfx_value))
              let m3 := (plan.2.1.take 120).foldl
                (fun acc mapping => appendLogAt acc ts res.2.id ("[map] " ++ mapping)) m2
              let m4 := if 120 < plan.2.1.length then
                  appendLogAt m3 ts res.2.id
                    ("[map] ... (" ++ toString (plan.2.1.length - 120) ++ " more)")
                else m3
              if cleanup_registry_source_tag then
                let m5 := appendLogAt m4 ts res.2.id
                  "[cleanup] registry source tag cleanup is enabled."
                ({ m5 with cleaners := m5.cleaners ++ [(res.2.id, plan.2.2)] }, .ok res.2)
              else (m4, .ok res.2)

/-- The per-repository loop of `create_remote_prefix_job` (lines 282-310):
returns `(commands, mappings, cleanup_targets, total_tags)` or the first
validation error. -/
def buildRemotePfxPlan (registry_host pfxModeN pfxN : String)
    (cleanup_source_tag : Bool) (tagsOf : String → List String) :
    List String →
      Except String (List (List String) × List String × List (String × String) × Nat)
  | [] => .ok ([], [], [], 0)
  | repository :: rest =>
    let tags := tagsOf repository
    if tags = [] then
      match buildRemotePfxPlan registry_host pfxModeN pfxN cleanup_source_tag
        tagsOf rest with
      | .error e => .error e
      | .ok acc => .ok (acc.1, (repository ++ " (no tags)") :: acc.2.1, acc.2.2)
    else
      match applyPfxS repository pfxModeN pfxN with
      | .error e => .error e
      | .ok new_repository =>
        if new_repository = "" then
          .error ("Prefix operation removed repository " ++ repository ++ ".")
        else if new_repository = repository then
          match buildRemotePfxPlan registry_host pfxModeN pfxN cleanup_source_tag
            tagsOf rest with
          | .error e => .error e
          | .ok acc => .ok (acc.1, (repository ++ " (unchanged)") :: acc.2.1, acc.2.2)
        else
          let perTag := tags.map (fun tag =>
            let source_ref := registry_host ++ "/" ++ repository ++ ":" ++ tag
            let target_ref := registry_host ++ "/" ++ new_repository ++ ":" ++ tag
            match inferPullPlatform repository tag with
            | some pv =>
              ([["docker", "pull", "--platform", pv, source_ref],
                ["docker", "tag", source_ref, target_ref],
                ["docker", "push", target_ref]],
                source_ref ++ " [" ++ pv ++ "] => " ++ target_ref)
            | none =>
              ([["docker", "pull", source_ref],
                ["docker", "tag", source_ref, target_ref],
                ["docker", "push", target_ref]],
                source_ref ++ " => " ++ target_ref))
          let cl0 := if cleanup_source_tag then tags.map (fun t => (repository, t)) else []
          match buildRemotePfxPlan registry_host pfxModeN pfxN cleanup_source_tag
            tagsOf rest with
          | .error e => .error e
          | .ok acc =>
            .ok ((perTag.map Prod.fst).flatten ++ acc.1,
              perTag.map Prod.snd ++ acc.2.1,
              cl0 ++ acc.2.2.1, tags.length + acc.2.2.2)

/-- Lines 315-340 of `create_remote_prefix_job`: insert/start the job, add
the plan and mapping log lines, and start the Cleanup Coordinator when
requested.  Factored out of `createRemotePfxJob` below. -/
def finishRemotePfxJob (m : ManagerState) (ts newId registry_host
    normalized_pfx_mode normalized_pfx : String) (cleanup_source_tag : Bool)
    (nRepos : Nat)
    (plan : List (List String) × List String × List (String × String) × Nat) :
    ManagerState × Except String SyncJob :=
  let job : SyncJob :=
    { id := newId
      source_image := toString nRepos ++ " remote repositories"
      target_image := registry_host
      job_type := "remote-prefix"
      total_items := plan.2.2.2
      status := "running"
      logs := []
      error := none }
  let res := createAndStartJob m ts job plan.1 true
  let m2 := appendLogAt res.1 ts res.2.id
    ("[plan] remote-prefix mode=" ++ normalized_pfx_mode ++
      " prefix=" ++ normalized_pfx ++ " cleanup_source_tag=" ++
      (if cleanup_source_tag then "True" else "False"))
  let m3 := (plan.2.1.take 200).foldl
    (fun acc mp => appendLogAt acc ts res.2.id ("[map] " ++ mp)) m2
  let m4 := if 200 < plan.2.1.length then
      appendLogAt m3 ts res.2.id
        ("[map] ... (" ++ toString (plan.2.1.length - 200) ++ " more)")
    else m3
  if cleanup_source_tag then
    ({ m4 with cleaners := m4.cleaners ++ [(res.2.id, plan.2.2.1)] }, .ok res.2)
  else (m4, .ok res.2)

/-- `SyncJobManager.create_remote_prefix_job` (lines 251-340). -/
def createRemotePfxJob (m : ManagerState) (ts newId : String)
    (tagsOf : String → List String) (repositories : List String)
    (pfx_mode pfx_value : String) (cleanup_source_tag : Bool)
    (target_registry_host : Option String) :
    ManagerState × Except String SyncJob :=
  let repos := (repositories.filter
      (fun item => (!(item == "")) && (!(pyStrip item == "")))).map
    (fun item => stripSlashes (pyStrip item))
  if repos = [] then (m, .error "At least one repository is required.")
  else
    let pm0 := pyLower (pyStrip pfx_mode)
    let normalized_pfx_mode := if pm0 = "" then "add" else pm0
    if ¬(normalized_pfx_mode = "add" ∨ normalized_pfx_mode = "remove") then
      (m, .error "prefix_mode must be add or remove.")
    else
      let normalized_pfx := stripSlashes (pyStrip pfx_value)
      if normalized_pfx = "" then (m, .error "prefix_value cannot be empty.")
      else
        let registry_host := rstripSlashes (pyStrip (match target_registry_host with
          | some s => if s = "" then m.registry_push_host else s
          | none => m.registry_push_host))
        if registry_host = "" then (m, .error "target_registry_host cannot be empty.")
        else if m.registry_api_url = "" then
          (m, .error "registry_api_url is empty, cannot query remote tags.")
        else
          match buildRemotePfxPlan registry_host normalized_pfx_mode normalized_pfx
            cleanup_source_tag tagsOf repos with
          | .error e => (m, .error e)
          | .ok plan =>
            if plan.2.2.2 = 0 then
              (m, .error "No tags found to rename for selected repositories.")
            else
              finishRemotePfxJob m ts newId registry_host normalized_pfx_mode
                normalized_pfx cleanup_source_tag repos.length plan

/-- Modelled from the spec: `create_repository_delete_job` is called from
`app/main.py` (lines 228-238) but its body is absent from `app/sync_jobs.py`.
Per spec §4.2/§6 it validates the repository list (fails fast on an empty
collection), builds no shell command plan (deletion is delegated to the
registry client per repository), and still produces a Job record inserted in
the store, executed with continue-on-error semantics. -/
def createRepositoryDeleteJob (m : ManagerState) (ts newId : String)
    (repositories : List String) :
    ManagerState × Except String (SyncJob × List String) :=
  let repos := (repositories.filter
    (fun item => (!(item == "")) && (!(pyStrip item == "")))).map pyStrip
  if repos = [] then (m, .error "At least one repository is required.")
  else
    let job : SyncJob :=
      { id := newId
        source_image := toString repos.length ++ " repositories"
        target_image := m.registry_push_host
        job_type := "repository-delete"
        total_items := repos.length
        status := "running"
        logs := []
        error := none }
    let res := createAndStartJob m ts job [] true
    (res.1, .ok (res.2, repos))

/-- Modelled from the spec: the repository-delete worker delegates deletion to
the registry client per selected repository with continue-on-error semantics
("a failure on one repository does not abort the others"); `deleteOk` is the
registry-client oracle.  Returns the repositories actually attempted and the
failure count. -/
def runRepositoryDeleteWork (deleteOk : String → Bool) :
    List String → List String × Nat
  | [] => ([], 0)
  | r :: rs =>
    let rest := runRepositoryDeleteWork deleteOk rs
    (r :: rest.1, (if deleteOk r then 0 else 1) + rest.2)

/-! ## Cleanup Coordinator (lines 488-565)

The registry is the oracle: for each `(repository, tag)` target it determines
the HEAD response, the GET fallback response, and the DELETE status code. -/

structure HttpResp where
  status_code : Nat
  digest : String
deriving Repr, DecidableEq

structure TagOracle where
  headResp : HttpResp
  getResp : HttpResp
  delStatus : Nat
deriving Repr, DecidableEq

/-- A registry HTTP request issued by the Cleanup Coordinator. -/
inductive RegCall where
  | head (path : String)
  | get (path : String)
  | del (path : String)
deriving Repr, DecidableEq

/-- Uppercase hex digit, as produced by `urllib.parse.quote`. -/
def hexDigitChar (n : Nat) : Char :=
  if n < 10 then Char.ofNat (48 + n) else Char.ofNat (55 + n)

/-- `urllib.parse.quote` for a single character with the given `safe` set. -/
def pyQuoteChar (safe : List Char) (ch : Char) : String :=
  if ch.isAlphanum ∨ ch ∈ ['_', '.', '-', '~'] ∨ ch ∈ safe then
    String.singleton ch
  else
    String.join (((String.singleton ch).toUTF8.toList).map (fun b =>
      String.mk ['%', hexDigitChar (b.toNat / 16), hexDigitChar (b.toNat % 16)]))

/-- `urllib.parse.quote(s, safe=...)`. -/
def pyQuote (safe : List Char) (s : String) : String :=
  String.join (s.data.map (pyQuoteChar safe))

/-- Tail of `_delete_registry_source_tag` after the digest was resolved
(lines 553-565).  Returns (log messages, calls issued, raised error). -/
def finishRegistryDelete (o : TagOracle) (repository tag digest : String)
    (calls : List RegCall) : List String × List RegCall × Option String :=
  if digest = "" then
    ([], calls, some ("cleanup digest missing for " ++ repository ++ ":" ++ tag))
  else
    let del_path := "/v2/" ++ repository ++ "/manifests/" ++ pyQuote [':'] digest
    let calls2 := calls ++ [RegCall.del del_path]
    if o.delStatus = 404 then
      (["[cleanup] already removed " ++ repository ++ ":" ++ tag], calls2, none)
    else if 400 ≤ o.delStatus then
      ([], calls2, some ("cleanup DELETE failed " ++ repository ++ ":" ++ tag ++
        " status=" ++ toString o.delStatus))
    else
      (["[cleanup] deleted source tag " ++ repository ++ ":" ++ tag], calls2, none)

/-- `_delete_registry_source_tag` (lines 518-565). -/
def deleteRegistrySourceTag (oracle : String × String → TagOracle)
    (repository tag : String) : List String × List RegCall × Option String :=
  let encoded_tag := pyQuote [] tag
  let path := "/v2/" ++ repository ++ "/manifests/" ++ encoded_tag
  let o := oracle (repository, tag)
  let calls0 := [RegCall.head path]
  if o.headResp.status_code = 404 then
    (["[cleanup] skip missing tag " ++ repository ++ ":" ++ tag], calls0, none)
  else if 400 ≤ o.headResp.status_code then
    ([], calls0, some ("cleanup HEAD failed " ++ repository ++ ":" ++ tag ++
      " status=" ++ toString o.headResp.status_code))
  else
    let digest0 := pyStrip o.headResp.digest
    if digest0 = "" then
      let calls1 := calls0 ++ [RegCall.get path]
      if 400 ≤ o.getResp.status_code then
        ([], calls1, some ("cleanup GET failed " ++ repository ++ ":" ++ tag ++
          " status=" ++ toString o.getResp.status_code))
      else finishRegistryDelete o repository tag (pyStrip o.getResp.digest) calls1
    else finishRegistryDelete o repository tag digest0 calls0

/-- Outcome of the Cleanup Coordinator body: log messages appended, registry
calls issued, and the status/error downgrade applied to the job (if any). -/
structure CleanupResult where
  logMsgs : List String
  calls : List RegCall
  statusChange : Option (String × String)
deriving Repr, DecidableEq

/-- The `for repository, tag in unique_targets` loop under the `try` of
`_wait_then_cleanup_registry_source_tags` (lines 510-516): the first raised
error aborts the remaining targets, logs the failure and flips the job to
`failed`. -/
def cleanupTargetsLoop (oracle : String × String → TagOracle) :
    List (String × String) → List String → List RegCall → CleanupResult
  | [], logs, calls => ⟨logs, calls, none⟩
  | t :: rest, logs, calls =>
    let r := deleteRegistrySourceTag oracle t.1 t.2
    match r.2.2 with
    | none => cleanupTargetsLoop oracle rest (logs ++ r.1) (calls ++ r.2.1)
    | some e =>
      ⟨logs ++ r.1 ++ ["[cleanup] registry cleanup failed: " ++ e],
        calls ++ r.2.1, some ("failed", "Registry cleanup failed: " ++ e)⟩

/-- The post-wait body of `_wait_then_cleanup_registry_source_tags`
(lines 494-516), as a function of the job status observed when the polling
loop ends (`none` when the job has been evicted meanwhile). -/
def cleanupAfterWait (apiUrl : String) (observed : Option String)
    (targets : List (String × String)) (oracle : String × String → TagOracle) :
    CleanupResult :=
  match observed with
  | none => ⟨[], [], none⟩
  | some st =>
    if st ≠ "success" then
      ⟨["[cleanup] skipped because job is not successful."], [], none⟩
    else if apiUrl = "" then
      ⟨["[cleanup] registry_api_url is empty, cannot cleanup."], [], none⟩
    else cleanupTargetsLoop oracle (dedupFirst [] targets) [] []

/-! ## Outcome predicates for the create entry points -/

/-- What claim C3 asserts of one `create_*` call on store `m`: a validation
error leaves the store (and the set of started workers) untouched, while a
returned job is already recorded with status `running` and has its runner
thread started. -/
def createOutcome (m : ManagerState) (r : ManagerState × Except String SyncJob) :
    Prop :=
  match r with
  | (m2, .error _) => m2 = m
  | (m2, .ok job) =>
      job.status = "running" ∧ statusOf m2 job.id = some "running" ∧
      (m2.runners.any (fun rn => rn.1 = job.id)) = true

/-- Strengthened outcome predicate for `create_local_push_job` (claims C3 and
C10): on success the job is recorded running, its runner started, and — when
registry source-tag cleanup was requested — its Cleanup Coordinator thread
started as well. -/
def createOutcomeLP (m : ManagerState) (crt : Bool) (newId : String)
    (r : ManagerState × Except String SyncJob) : Prop :=
  match r with
  | (m2, .error _) => m2 = m
  | (m2, .ok job) =>
      job.id = newId ∧ job.status = "running" ∧
      statusOf m2 job.id = some "running" ∧
      (m2.runners.any (fun rn => rn.1 = job.id)) = true ∧
      (crt = true → (m2.cleaners.any (fun c => c.1 = job.id)) = true)

/-- `m2` differs from `m` only in job log contents: statuses, runners and
cleaners agree. -/
def LogOnly (m m2 : ManagerState) : Prop :=
  (∀ k, statusOf m2 k = statusOf m k) ∧ m2.runners = m.runners ∧
    m2.cleaners = m.cleaners

/-! ## System step relation (claim C1)

The running system is modelled as a labelled transition system over the
store plus ghost bookkeeping: `runnerDone` records the job ids whose (unique)
runner thread has already written its terminal status (`_run_commands_job`
finishes exactly once per job), `cleanupDone` the ids whose Cleanup
Coordinator has finished, and `usedIds` every uuid handed out (uuid4
collisions are assumed absent).  Each constructor is one atomic store
operation the system can perform, with the guards the code enforces. -/

structure SysState where
  m : ManagerState
  runnerDone : List String
  cleanupDone : List String
  usedIds : List String
deriving Repr, DecidableEq

/-- A freshly constructed manager with no threads started. -/
def initState (push : String) (api : Option String) (retention : Int) :
    SysState :=
  ⟨mkManager push api retention, [], [], []⟩

inductive StepLabel where
  | create (job : SyncJob) (cmds : List (List String)) (cont : Bool)
      (cleanupTargets : Option (List (String × String))) (ts : String)
  | runnerFinish (id : String) (ok : Bool) (err : String)
  | logAppend (ts id msg : String)
  | cleanupGone (id : String)
  | cleanupSkip (ts id : String)
  | cleanupNoApi (ts id : String)
  | cleanupOk (id : String) (lines : List (String × String))
  | cleanupFail (id : String) (priorLines : List (String × String))
      (ts exc : String)
deriving Repr, DecidableEq

/-- Store effect of a create call (`_create_and_start_job` plus the optional
Cleanup Coordinator registration). -/
def createEffect (s : SysState) (job : SyncJob) (cmds : List (List String))
    (cont : Bool) (cleanup : Option (List (String × String))) (ts : String) :
    SysState :=
  let m1 := (createAndStartJob s.m ts job cmds cont).1
  let m2 := match cleanup with
    | none => m1
    | some tg => { m1 with cleaners := m1.cleaners ++ [(job.id, tg)] }
  ⟨m2, s.runnerDone, s.cleanupDone, job.id :: s.usedIds⟩

/-- One atomic system step.  The cleanup constructors mirror the branches of
`_wait_then_cleanup_registry_source_tags` (lines 488-516): they fire only for
a job with a registered coordinator that has not finished, once the observed
status has left `running`; `cleanupFail` is the exception path (lines
514-516) that downgrades a successful job. -/
inductive SysStep : SysState → StepLabel → SysState → Prop where
  | create (s : SysState) (job : SyncJob) (cmds : List (List String))
      (cont : Bool) (cleanup : Option (List (String × String))) (ts : String)
      (hfresh : job.id ∉ s.usedIds) (hrun : job.status = "running") :
      SysStep s (.create job cmds cont cleanup ts)
        (createEffect s job cmds cont cleanup ts)
  | runnerFinish (s : SysState) (id : String) (ok : Bool) (err : String)
      (hdone : id ∉ s.runnerDone) :
      SysStep s (.runnerFinish id ok err)
        ⟨updateJobStatus s.m id (if ok then "success" else "failed")
            (if ok then none else some err),
          id :: s.runnerDone, s.cleanupDone, s.usedIds⟩
  | logAppend (s : SysState) (ts id msg : String) :
      SysStep s (.logAppend ts id msg)
        ⟨appendLogAt s.m ts id msg, s.runnerDone, s.cleanupDone, s.usedIds⟩
  | cleanupGone (s : SysState) (id : String)
      (hcl : (s.m.cleaners.any (fun c => c.1 = id)) = true)
      (hnd : id ∉ s.cleanupDone) (hgone : lookupJob s.m.jobs id = none) :
      SysStep s (.cleanupGone id)
        ⟨s.m, s.runnerDone, id :: s.cleanupDone, s.usedIds⟩
  | cleanupSkip (s : SysState) (ts id st : String)
      (hcl : (s.m.cleaners.any (fun c => c.1 = id)) = true)
      (hnd : id ∉ s.cleanupDone) (hst : statusOf s.m id = some st)
      (hrn : st ≠ "running") (hsc : st ≠ "success") :
      SysStep s (.cleanupSkip ts id)
        ⟨appendLogAt s.m ts id "[cleanup] skipped because job is not successful.",
          s.runnerDone, id :: s.cleanupDone, s.usedIds⟩
  | cleanupNoApi (s : SysState) (ts id : String)
      (hcl : (s.m.cleaners.any (fun c => c.1 = id)) = true)
      (hnd : id ∉ s.cleanupDone) (hst : statusOf s.m id = some "success")
      (hapi : s.m.registry_api_url = "") :
      SysStep s (.cleanupNoApi ts id)
        ⟨appendLogAt s.m ts id "[cleanup] registry_api_url is empty, cannot cleanup.",
          s.runnerDone, id :: s.cleanupDone, s.usedIds⟩
  | cleanupOk (s : SysState) (id : String) (lines : List (String × String))
      (hcl : (s.m.cleaners.any (fun c => c.1 = id)) = true)
      (hnd : id ∉ s.cleanupDone) (hst : statusOf s.m id = some "success")
      (hapi : s.m.registry_api_url ≠ "") :
      SysStep s (.cleanupOk id lines)
        ⟨appendLogsAt s.m id lines, s.runnerDone, id :: s.cleanupDone, s.usedIds⟩
  | cleanupFail (s : SysState) (id : String)
      (priorLines : List (String × String)) (ts exc : String)
      (hcl : (s.m.cleaners.any (fun c => c.1 = id)) = true)
      (hnd : id ∉ s.cleanupDone) (hst : statusOf s.m id = some "success")
      (hapi : s.m.registry_api_url ≠ "") :
      SysStep s (.cleanupFail id priorLines ts exc)
        ⟨updateJobStatus
            (appendLogAt (appendLogsAt s.m id priorLines) ts id
              ("[cleanup] registry cleanup failed: " ++ exc))
            id "failed" (some ("Registry cleanup failed: " ++ exc)),
          s.runnerDone, id :: s.cleanupDone, s.usedIds⟩

/-- Unlabelled step. -/
def Step (s s2 : SysState) : Prop := ∃ l, SysStep s l s2

/-- Reachability along system steps. -/
def Steps : SysState → SysState → Prop := Relation.ReflTransGen Step

/-- Reachable-state invariant: every stored job id was handed out; a job that
has left `running` had its runner finish; stored keys are distinct. -/
def SysInv (s : SysState) : Prop :=
  (∀ p ∈ s.m.jobs, p.1 ∈ s.usedIds) ∧
  (∀ p ∈ s.m.jobs, p.2.status = "running" ∨ p.1 ∈ s.runnerDone) ∧
  (s.m.jobs.map Prod.fst).Nodup

/-! Concrete trace used to refute the unamended C1: a mirror-style job "a"
with a registered Cleanup Coordinator finishes successfully, then the
coordinator's cleanup attempt raises and downgrades it to failed. -/

def cexJob : SyncJob := ⟨"a", "src", "tgt", "mirror", 1, "running", [], none⟩

def cexS0 : SysState := initState "h" (some "http://r") 20

def cexS1 : SysState := createEffect cexS0 cexJob [] false (some [("r", "t")]) "T"

def cexS2 : SysState :=
  ⟨updateJobStatus cexS1.m "a" "success" none,
    "a" :: cexS1.runnerDone, cexS1.cleanupDone, cexS1.usedIds⟩

def cexS3 : SysState :=
  ⟨updateJobStatus
      (appendLogAt (appendLogsAt cexS2.m "a" []) "T2" "a"
        ("[cleanup] registry cleanup failed: boom"))
      "a" "failed" (some ("Registry cleanup failed: boom")),
    cexS2.runnerDone, "a" :: cexS2.cleanupDone, cexS2.usedIds⟩

/-! ## THEOREMS -/

theorem keepLast_of_le {l : List α} (h : l.length ≤ n) : keepLast n l = l := by
  simp only [keepLast, Nat.sub_eq_zero_of_le h, List.drop_zero]

theorem keepLast_length_le (n : Nat) (l : List α) : (keepLast n l).length ≤ n := by
  simp only [keepLast, List.length_drop]
  omega

theorem keepLast_eq_reverse_take (n : Nat) (l : List α) :
    keepLast n l = (l.reverse.take n).reverse := by
  rw [keepLast, List.reverse_take, List.reverse_reverse, List.length_reverse]

/-- Re-capping an already capped list before appending is the same as capping
the full concatenation: the fundamental lemma behind both the log cap and the
Job Store retention cap. -/
theorem keepLast_append_keepLast (n : Nat) (a b : List α) :
    keepLast n (keepLast n a ++ b) = keepLast n (a ++ b) := by
  simp only [keepLast_eq_reverse_take, List.reverse_append, List.reverse_reverse,
    List.take_append_eq_append_take, List.take_take, List.length_reverse]
  rw [Nat.min_eq_left (Nat.sub_le _ _)]

/-- Folding a `keepLast`-shaped step over a capped seed computes the cap of
the whole concatenation. -/
theorem foldl_keepLast_step (n : Nat) (f : List α → α → List α)
    (hf : ∀ l x, f l x = keepLast n (l ++ [x])) :
    ∀ (xs : List α) (l : List α), xs.foldl f (keepLast n l) = keepLast n (l ++ xs)
  | [], l => by simp
  | x :: xs, l => by
    rw [List.foldl_cons, hf, keepLast_append_keepLast,
      foldl_keepLast_step n f hf xs (l ++ [x]), List.append_assoc]
    rfl

/-! ### The `_append_log` cap (claim C8) -/

theorem appendCapped_eq_keepLast (l : List String) (x : String) :
    appendCapped l x = keepLast 300 (l ++ [x]) := by
  by_cases h : 300 < (l ++ [x]).length
  · simp only [appendCapped, keepLast, if_pos h]
  · simp only [appendCapped, keepLast, if_neg h,
      Nat.sub_eq_zero_of_le (Nat.le_of_not_lt h), List.drop_zero]

/-- C8: starting from any job-log state within the cap (in particular the
empty log a job is created with), appending any sequence of lines through
`_append_log`'s cap step leaves at most 300 entries, and what remains is
exactly the most recent appended lines in their append order (the oldest
entries having been dropped). -/
theorem claim8_log_cap (init : List String) (h : init.length ≤ 300)
    (lines : List String) :
    (lines.foldl appendCapped init).length ≤ 300 ∧
    lines.foldl appendCapped init =
      (init ++ lines).drop ((init ++ lines).length - 300) := by
  have h2 := foldl_keepLast_step 300 appendCapped appendCapped_eq_keepLast lines init
  rw [keepLast_of_le h] at h2
  exact ⟨h2 ▸ keepLast_length_le 300 (init ++ lines), h2⟩

/-- Witness for C8 at a concrete input. -/
theorem claim8_witness :
    (["one", "two"].foldl appendCapped []).length ≤ 300 ∧
    ["one", "two"].foldl appendCapped [] =
      ((([] : List String) ++ ["one", "two"]).drop
        ((([] : List String) ++ ["one", "two"]).length - 300)) :=
  claim8_log_cap [] (by decide) ["one", "two"]

/-! ### Job Store retention (claim C4) -/

theorem odSet_of_not_mem (l : List (String × SyncJob)) (id : String)
    (job : SyncJob) (h : ∀ p ∈ l, p.1 ≠ id) :
    odSet l id job = l ++ [(id, job)] := by
  simp only [odSet, ite_eq_right_iff]
  intro hany
  rw [List.any_eq_true] at hany
  obtain ⟨p, hp, hpe⟩ := hany
  exact absurd (of_decide_eq_true hpe) (h p hp)

theorem evictLoop_eq_keepLast (r : Int) (hr : 0 ≤ r) :
    ∀ l : List (String × SyncJob), evictLoop r l = keepLast r.toNat l
  | [] => by simp [evictLoop, keepLast]
  | p :: tl => by
    rw [evictLoop]
    by_cases h : r < ((p :: tl).length : Int)
    · rw [if_pos h, evictLoop_eq_keepLast r hr tl]
      have hlt : r.toNat ≤ tl.length := by
        simp only [List.length_cons] at h
        omega
      simp only [keepLast, List.length_cons]
      rw [show tl.length + 1 - r.toNat = (tl.length - r.toNat) + 1 by omega,
        List.drop_succ_cons]
    · rw [if_neg h]
      have hle : (p :: tl).length ≤ r.toNat := by
        simp only [List.length_cons] at h ⊢
        omega
      rw [keepLast_of_le hle]

theorem insertJob_jobs_fresh (m : ManagerState) (job : SyncJob)
    (hr : 0 ≤ m.retention) (h : ∀ p ∈ m.jobs, p.1 ≠ job.id) :
    (insertJob m job).jobs =
      keepLast m.retention.toNat (m.jobs ++ [(job.id, job)]) := by
  simp only [insertJob, odSet_of_not_mem _ _ _ h, evictLoop_eq_keepLast _ hr]

theorem foldl_insertJob (js : List SyncJob) :
    ∀ (m : ManagerState), 0 ≤ m.retention →
      m.jobs.length ≤ m.retention.toNat →
      ((m.jobs.map Prod.fst) ++ js.map SyncJob.id).Nodup →
      (js.foldl insertJob m).jobs =
        keepLast m.retention.toNat (m.jobs ++ js.map fun j => (j.id, j)) ∧
      (js.foldl insertJob m).retention = m.retention := by
  induction js with
  | nil =>
    intro m _ hcap _
    refine ⟨?_, rfl⟩
    rw [List.foldl_nil, List.map_nil, List.append_nil, keepLast_of_le hcap]
  | cons j rest ih =>
    intro m hr hcap hnd
    have hdisj : j.id ∉ m.jobs.map Prod.fst := by
      rw [List.nodup_append] at hnd
      intro hmem
      exact hnd.2.2 hmem (by simp)
    have hfresh : ∀ p ∈ m.jobs, p.1 ≠ j.id := by
      intro p hp he
      exact hdisj (he ▸ List.mem_map_of_mem Prod.fst hp)
    have hjobs := insertJob_jobs_fresh m j hr hfresh
    have hsub : (insertJob m j).jobs.Sublist (m.jobs ++ [(j.id, j)]) := by
      rw [hjobs]
      exact List.drop_sublist _ _
    have hret : (insertJob m j).retention = m.retention := rfl
    have hnd2 : (((insertJob m j).jobs.map Prod.fst) ++ rest.map SyncJob.id).Nodup := by
      have hs : ((insertJob m j).jobs.map Prod.fst ++ rest.map SyncJob.id).Sublist
          (((m.jobs ++ [(j.id, j)]).map Prod.fst) ++ rest.map SyncJob.id) :=
        (hsub.map Prod.fst).append_right _
      refine hs.nodup ?_
      simpa [List.append_assoc] using hnd
    have hcap2 : (insertJob m j).jobs.length ≤ (insertJob m j).retention.toNat := by
      rw [hjobs, hret]
      exact keepLast_length_le _ _
    obtain ⟨h1, h2⟩ := ih (insertJob m j) (hret ▸ hr) hcap2 hnd2
    rw [List.foldl_cons]
    refine ⟨?_, by rw [h2, hret]⟩
    rw [h1, hret, hjobs, keepLast_append_keepLast, List.append_assoc]
    rfl

/-- C4: for any configured retention `R`, a Job Store built by the
constructor and fed any sequence of (distinct-id) jobs through `_insert_job`
holds at most `max(R, 20)` jobs, and what remains is exactly the most
recently inserted jobs in insertion order — the oldest were evicted. -/
theorem claim4_retention (push : String) (api : Option String) (R : Int)
    (js : List SyncJob) (h : (js.map SyncJob.id).Nodup) :
    ((js.foldl insertJob (mkManager push api R)).jobs).length ≤ (max R 20).toNat ∧
    (js.foldl insertJob (mkManager push api R)).jobs =
      (js.map fun j => (j.id, j)).drop (js.length - (max R 20).toNat) := by
  have hr : (0 : Int) ≤ max R 20 := le_trans (by norm_num) (le_max_right R 20)
  obtain ⟨h1, _⟩ := foldl_insertJob js (mkManager push api R) hr
    (by simp [mkManager]) (by simpa [mkManager] using h)
  have hm : (mkManager push api R).retention = max R 20 := rfl
  have hnil : (mkManager push api R).jobs = [] := rfl
  rw [hnil, List.nil_append, hm] at h1
  refine ⟨h1 ▸ keepLast_length_le _ _, ?_⟩
  rw [h1, keepLast, List.length_map]

/-- Witness for C4 at a concrete input. -/
theorem claim4_witness :
    ((([⟨"a", "s", "t", "mirror", 1, "running", [], none⟩,
        ⟨"b", "s", "t", "mirror", 1, "running", [], none⟩] :
        List SyncJob).foldl insertJob (mkManager "h" none 20)).jobs).length ≤
      (max (20 : Int) 20).toNat ∧
    (([⟨"a", "s", "t", "mirror", 1, "running", [], none⟩,
        ⟨"b", "s", "t", "mirror", 1, "running", [], none⟩] :
        List SyncJob).foldl insertJob (mkManager "h" none 20)).jobs =
      (([⟨"a", "s", "t", "mirror", 1, "running", [], none⟩,
        ⟨"b", "s", "t", "mirror", 1, "running", [], none⟩] :
        List SyncJob).map fun j => (j.id, j)).drop
        (2 - (max (20 : Int) 20).toNat) :=
  claim4_retention "h" none 20 _ (by decide)


theorem runCommandsLoop_cons_ok (b : Bool) (c : CmdRun) (hc : c.exitCode = 0)
    (cs : List CmdRun) (f : Nat) (logs : List String) (ex : List (List String)) :
    runCommandsLoop b (c :: cs) f logs ex =
      runCommandsLoop b cs f
        (logs ++ ("[run] " ++ String.intercalate " " c.argv) :: c.output)
        (ex ++ [c.argv]) := by
  simp [runCommandsLoop, runCommand, hc]

theorem runCommandsLoop_cons_fail_continue (c : CmdRun) (hc : c.exitCode ≠ 0)
    (cs : List CmdRun) (f : Nat) (logs : List String) (ex : List (List String)) :
    runCommandsLoop true (c :: cs) f logs ex =
      runCommandsLoop true cs (f + 1)
        (logs ++ (("[run] " ++ String.intercalate " " c.argv) :: c.output) ++
          ["[error] " ++ ("Command failed (" ++ toString c.exitCode ++ "): " ++
            String.intercalate " " c.argv)])
        (ex ++ [c.argv]) := by
  simp [runCommandsLoop, runCommand, hc]

theorem runCommandsLoop_cons_fail_failfast (c : CmdRun) (hc : c.exitCode ≠ 0)
    (cs : List CmdRun) (f : Nat) (logs : List String) (ex : List (List String)) :
    runCommandsLoop false (c :: cs) f logs ex =
      { status := "failed"
        error := some ("Command failed (" ++ toString c.exitCode ++ "): " ++
          String.intercalate " " c.argv)
        logMsgs := logs ++ (("[run] " ++ String.intercalate " " c.argv) :: c.output) ++
          ["[error] " ++ ("Command failed (" ++ toString c.exitCode ++ "): " ++
            String.intercalate " " c.argv)]
        executed := ex ++ [c.argv] } := by
  simp [runCommandsLoop, runCommand, hc]

theorem runCommandsLoop_failfast (pre : List CmdRun) :
    (∀ c ∈ pre, c.exitCode = 0) → ∀ (bad : CmdRun), bad.exitCode ≠ 0 →
    ∀ (post : List CmdRun) (f : Nat) (logs : List String) (ex : List (List String)),
    (runCommandsLoop false (pre ++ bad :: post) f logs ex).status = "failed" ∧
    (runCommandsLoop false (pre ++ bad :: post) f logs ex).error =
      some ("Command failed (" ++ toString bad.exitCode ++ "): " ++
        String.intercalate " " bad.argv) ∧
    (runCommandsLoop false (pre ++ bad :: post) f logs ex).executed =
      ex ++ (pre ++ [bad]).map CmdRun.argv := by
  induction pre with
  | nil =>
    intro _ bad hbad post f logs ex
    rw [List.nil_append, runCommandsLoop_cons_fail_failfast bad hbad]
    exact ⟨rfl, rfl, by simp⟩
  | cons c pre ih =>
    intro hok bad hbad post f logs ex
    have hc : c.exitCode = 0 := hok c (List.mem_cons_self c pre)
    have hrest : ∀ x ∈ pre, x.exitCode = 0 := fun x hx => hok x (List.mem_cons_of_mem c hx)
    rw [List.cons_append, runCommandsLoop_cons_ok false c hc]
    obtain ⟨h1, h2, h3⟩ := ih hrest bad hbad post f
      (logs ++ ("[run] " ++ String.intercalate " " c.argv) :: c.output) (ex ++ [c.argv])
    refine ⟨h1, h2, ?_⟩
    rw [h3]
    simp

/-- C5: in fail-fast mode (mirror and local-push jobs), if every command
before `bad` succeeds and `bad` exits non-zero, then execution stops at
`bad`: exactly the commands up to and including `bad` were executed, the job
status becomes `failed`, and the error is
`Command failed (<exit_code>): <joined argv>` built from `bad`'s exit code
and space-joined argv. -/
theorem claim5_fail_fast (pre : List CmdRun) (bad : CmdRun) (post : List CmdRun)
    (hpre : ∀ c ∈ pre, c.exitCode = 0) (hbad : bad.exitCode ≠ 0) :
    (runCommandsJob false (pre ++ bad :: post)).status = "failed" ∧
    (runCommandsJob false (pre ++ bad :: post)).error =
      some ("Command failed (" ++ toString bad.exitCode ++ "): " ++
        String.intercalate " " bad.argv) ∧
    (runCommandsJob false (pre ++ bad :: post)).executed =
      (pre ++ [bad]).map CmdRun.argv := by
  obtain ⟨h1, h2, h3⟩ := runCommandsLoop_failfast pre hpre bad hbad post 0 [] []
  exact ⟨h1, h2, by rw [runCommandsJob, h3, List.nil_append]⟩

/-- Witness for C5 at a concrete plan `[ok, fail, ok]`. -/
theorem claim5_witness :
    (runCommandsJob false
      [⟨["docker", "pull", "a"], [], 0⟩, ⟨["docker", "tag", "a", "b"], [], 1⟩,
        ⟨["docker", "push", "b"], [], 0⟩]).status = "failed" ∧
    (runCommandsJob false
      [⟨["docker", "pull", "a"], [], 0⟩, ⟨["docker", "tag", "a", "b"], [], 1⟩,
        ⟨["docker", "push", "b"], [], 0⟩]).error =
      some ("Command failed (" ++ toString (1 : Int) ++ "): " ++
        String.intercalate " " ["docker", "tag", "a", "b"]) ∧
    (runCommandsJob false
      [⟨["docker", "pull", "a"], [], 0⟩, ⟨["docker", "tag", "a", "b"], [], 1⟩,
        ⟨["docker", "push", "b"], [], 0⟩]).executed =
      ([⟨["docker", "pull", "a"], [], 0⟩,
        (⟨["docker", "tag", "a", "b"], [], 1⟩ : CmdRun)]).map CmdRun.argv :=
  claim5_fail_fast [⟨["docker", "pull", "a"], [], 0⟩]
    ⟨["docker", "tag", "a", "b"], [], 1⟩ [⟨["docker", "push", "b"], [], 0⟩]
    (by decide) (by decide)

theorem runCommandsLoop_continue (cs : List CmdRun) :
    ∀ (f : Nat) (logs : List String) (ex : List (List String)),
    (runCommandsLoop true cs f logs ex).executed = ex ++ cs.map CmdRun.argv ∧
    (runCommandsLoop true cs f logs ex).status =
      (if 0 < f + (cs.filter fun c => c.exitCode != 0).length then "failed"
        else "success") ∧
    (runCommandsLoop true cs f logs ex).error =
      (if 0 < f + (cs.filter fun c => c.exitCode != 0).length then
        some (toString (f + (cs.filter fun c => c.exitCode != 0).length) ++
          " command(s) failed")
      else none) := by
  induction cs with
  | nil =>
    intro f logs ex
    refine ⟨?_, ?_, ?_⟩ <;>
      by_cases hf : 0 < f <;>
        simp [runCommandsLoop, hf]
  | cons c cs ih =>
    intro f logs ex
    by_cases hc : c.exitCode = 0
    · rw [runCommandsLoop_cons_ok true c hc]
      obtain ⟨h1, h2, h3⟩ := ih f
        (logs ++ ("[run] " ++ String.intercalate " " c.argv) :: c.output) (ex ++ [c.argv])
      have hfilt : ((c :: cs).filter fun x => x.exitCode != 0) =
          (cs.filter fun x => x.exitCode != 0) := by
        simp [List.filter_cons, hc]
      refine ⟨?_, ?_, ?_⟩
      · rw [h1]
        simp
      · rw [h2, hfilt]
      · rw [h3, hfilt]
    · rw [runCommandsLoop_cons_fail_continue c hc]
      obtain ⟨h1, h2, h3⟩ := ih (f + 1) _ (ex ++ [c.argv])
      have hfilt : ((c :: cs).filter fun x => x.exitCode != 0) =
          c :: (cs.filter fun x => x.exitCode != 0) := by
        simp [List.filter_cons, hc]
      have harith : f + 1 + (cs.filter fun x => x.exitCode != 0).length =
          f + ((c :: cs).filter fun x => x.exitCode != 0).length := by
        rw [hfilt, List.length_cons]
        omega
      refine ⟨?_, ?_, ?_⟩
      · rw [h1]
        simp
      · rw [h2, harith]
      · rw [h3, harith]

/-- C6: in continue-on-error mode (remote-prefix jobs), every command in the
plan is attempted regardless of earlier failures, and the job ends `failed`
exactly when at least one command exited non-zero — with an error summarizing
the failure count — and `success` otherwise. -/
theorem claim6_continue_on_error (plan : List CmdRun) :
    (runCommandsJob true plan).executed = plan.map CmdRun.argv ∧
    (runCommandsJob true plan).status =
      (if 0 < (plan.filter fun c => c.exitCode != 0).length then "failed"
        else "success") ∧
    (runCommandsJob true plan).error =
      (if 0 < (plan.filter fun c => c.exitCode != 0).length then
        some (toString (plan.filter fun c => c.exitCode != 0).length ++
          " command(s) failed")
      else none) := by
  obtain ⟨h1, h2, h3⟩ := runCommandsLoop_continue plan 0 [] []
  rw [Nat.zero_add] at h2 h3
  exact ⟨by rw [runCommandsJob, h1, List.nil_append], by rw [runCommandsJob, h2],
    by rw [runCommandsJob, h3]⟩


/-! ### `_apply_prefix` add/remove roundtrip (claim C9) -/

theorem head_not_of_dropWhile_eq_self (p : α → Bool) (x : α) (xs : List α)
    (h : (x :: xs).dropWhile p = x :: xs) : p x = false := by
  by_contra hx
  rw [Bool.not_eq_false] at hx
  rw [List.dropWhile_cons, if_pos hx] at h
  have hle : (xs.dropWhile p).length ≤ xs.length :=
    (List.dropWhile_sublist p).length_le
  rw [h] at hle
  simp at hle

theorem strip_eq_self_parts (c : Char) (s : List Char) (h : stripChar c s = s) :
    s.dropWhile (· = c) = s ∧ s.reverse.dropWhile (· = c) = s.reverse := by
  have hsub2 : (((s.dropWhile (· = c)).reverse.dropWhile (· = c))).length ≤
      (s.dropWhile (· = c)).length := by
    have hx : (((s.dropWhile (· = c)).reverse).dropWhile (· = c)).length ≤
        ((s.dropWhile (· = c)).reverse).length :=
      (List.dropWhile_sublist (· = c)).length_le
    simpa using hx
  have hlen : (stripChar c s).length = s.length := congrArg List.length h
  have hlenstrip : (stripChar c s).length =
      ((s.dropWhile (· = c)).reverse.dropWhile (· = c)).length := by
    simp [stripChar]
  have hsub1 : (s.dropWhile (· = c)).length ≤ s.length :=
    (List.dropWhile_sublist (· = c)).length_le
  have hA : (s.dropWhile (· = c)) = s :=
    (List.dropWhile_suffix _).eq_of_length (by omega)
  refine ⟨hA, ?_⟩
  have h2 : stripChar c s = (s.reverse.dropWhile (· = c)).reverse := by
    rw [stripChar, hA]
  rw [h] at h2
  simpa using (congrArg List.reverse h2).symm

theorem stripChar_notrail (c : Char) (s : List Char) :
    (stripChar c s).reverse.dropWhile (· = c) = (stripChar c s).reverse := by
  rw [stripChar, List.reverse_reverse]
  exact List.dropWhile_idempotent _ _

theorem stripChar_nolead (c : Char) (s : List Char) :
    (stripChar c s).dropWhile (· = c) = stripChar c s := by
  cases hres : stripChar c s with
  | nil => rfl
  | cons x xs =>
    have hpre : (x :: xs) <+: (s.dropWhile (· = c)) := by
      rw [← hres, stripChar]
      have hsuf : ((s.dropWhile (· = c)).reverse.dropWhile (· = c)) <:+
          (s.dropWhile (· = c)).reverse := List.dropWhile_suffix _
      have hrp : ((s.dropWhile (· = c)).reverse.dropWhile (· = c)).reverse <+:
          ((s.dropWhile (· = c)).reverse).reverse := List.reverse_prefix.mpr hsuf
      rwa [List.reverse_reverse] at hrp
    obtain ⟨t, ht⟩ := hpre
    have hA : s.dropWhile (· = c) = x :: (xs ++ t) := by
      rw [← ht]
      simp
    have hx : (decide (x = c)) = false := by
      refine head_not_of_dropWhile_eq_self (fun a => decide (a = c)) x (xs ++ t) ?_
      rw [← hA]
      exact List.dropWhile_idempotent _ _
    simp [List.dropWhile_cons, hx]

theorem stripChar_eq_self (c : Char) (s : List Char)
    (h1 : s.dropWhile (· = c) = s)
    (h2 : s.reverse.dropWhile (· = c) = s.reverse) :
    stripChar c s = s := by
  rw [stripChar, h1, h2, List.reverse_reverse]

/-- C9 counterexample: the claim fails at `r = "x"`, `p = "x"`. Here `r` does
not start with `"p/" = "x/"`, yet `add` leaves `"x"` unchanged (repository
equals the prefix) and `remove` then maps it to the empty repository name,
not back to `r`. -/
theorem claim9_counterexample :
    (("x".data ++ ['/']).isPrefixOf "x".data) = false ∧
    (applyPfx "x".data "add" "x".data).bind
      (fun r1 => applyPfx r1 "remove" "x".data) = .ok [] ∧
    ([] : List Char) ≠ "x".data :=
  ⟨by decide, by rfl, by decide⟩

/-- C9 (amended): `apply_prefix(apply_prefix(r, add, p), remove, p) == r`
holds whenever `r` carries no leading/trailing slash (`r.strip("/") == r`),
`r` is not equal to the stripped prefix, and `r` does not start with
`<stripped p>/`. (The unamended claim fails when `r` equals the prefix, and
for inputs with leading/trailing slashes, which `_apply_prefix` strips.) -/
theorem claim9_roundtrip (r p : List Char)
    (hr : stripChar '/' r = r)
    (hne : r ≠ stripChar '/' p)
    (hpre : ¬ (stripChar '/' p ++ ['/']) <+: r) :
    (applyPfx r "add" p).bind (fun r1 => applyPfx r1 "remove" p) = .ok r := by
  by_cases hq0 : stripChar '/' p = []
  · simp [applyPfx, hq0, hr, Except.bind]
  · have hC1 : ¬ (stripChar '/' p = [] ∨ ("add" : String) = "none") := by
      rintro (h | h)
      · exact hq0 h
      · exact absurd h (by decide)
    have hC1r : ¬ (stripChar '/' p = [] ∨ ("remove" : String) = "none") := by
      rintro (h | h)
      · exact hq0 h
      · exact absurd h (by decide)
    have hC2 : ¬ ((stripChar '/' p ++ ['/']).isPrefixOf r = true ∨
        r = stripChar '/' p) := by
      rintro (h | h)
      · rw [List.isPrefixOf_iff_prefix] at h
        exact hpre h
      · exact hne h
    have hadd : applyPfx r "add" p = .ok (stripChar '/' p ++ '/' :: r) := by
      rw [applyPfx, if_neg hC1, if_pos rfl, hr, if_neg hC2]
    rw [hadd]
    show applyPfx (stripChar '/' p ++ '/' :: r) "remove" p = .ok r
    obtain ⟨x, q', hxq⟩ : ∃ x q', stripChar '/' p = x :: q' := by
      cases hql : stripChar '/' p with
      | nil => exact absurd hql hq0
      | cons a b => exact ⟨a, b, rfl⟩
    have hxslash : (decide (x = '/')) = false := by
      refine head_not_of_dropWhile_eq_self (fun a => decide (a = '/')) x q' ?_
      rw [← hxq]
      exact stripChar_nolead '/' p
    by_cases hr0 : r = []
    · subst hr0
      have hfront : (stripChar '/' p ++ '/' :: ([] : List Char)).dropWhile (· = '/') =
          stripChar '/' p ++ '/' :: [] := by
        rw [hxq]
        simp [List.dropWhile_cons, hxslash]
      have hback : ((stripChar '/' p ++ '/' :: ([] : List Char)).reverse).dropWhile (· = '/') =
          (stripChar '/' p).reverse := by
        rw [List.reverse_append]
        simp only [List.reverse_cons, List.reverse_nil, List.nil_append,
          List.singleton_append]
        simp [List.dropWhile_cons, stripChar_notrail]
      have hstrip : stripChar '/' (stripChar '/' p ++ '/' :: ([] : List Char)) =
          stripChar '/' p := by
        rw [stripChar, hfront, hback, List.reverse_reverse]
      have hC3 : ¬ ((stripChar '/' p ++ ['/']).isPrefixOf (stripChar '/' p) = true) := by
        intro h
        rw [List.isPrefixOf_iff_prefix] at h
        have := h.length_le
        simp at this
      rw [applyPfx, if_neg hC1r, if_neg (by decide), if_pos rfl, hstrip,
        if_neg hC3, if_pos rfl]
    · obtain ⟨y, ys, hy⟩ : ∃ y ys, r.reverse = y :: ys := by
        cases hrv : r.reverse with
        | nil =>
          exact absurd (by simpa using congrArg List.reverse hrv) hr0
        | cons a b => exact ⟨a, b, rfl⟩
      have hyslash : (decide (y = '/')) = false := by
        refine head_not_of_dropWhile_eq_self (fun a => decide (a = '/')) y ys ?_
        rw [← hy]
        exact (strip_eq_self_parts '/' r hr).2
      have hfront : (stripChar '/' p ++ '/' :: r).dropWhile (· = '/') =
          stripChar '/' p ++ '/' :: r := by
        rw [hxq]
        simp [List.dropWhile_cons, hxslash]
      have hback : ((stripChar '/' p ++ '/' :: r).reverse).dropWhile (· = '/') =
          (stripChar '/' p ++ '/' :: r).reverse := by
        rw [List.reverse_append, List.reverse_cons, List.append_assoc, hy]
        simp [List.dropWhile_cons, hyslash]
      have hstrip : stripChar '/' (stripChar '/' p ++ '/' :: r) =
          stripChar '/' p ++ '/' :: r :=
        stripChar_eq_self '/' _ hfront hback
      have hC3 : (stripChar '/' p ++ ['/']).isPrefixOf (stripChar '/' p ++ '/' :: r) = true := by
        rw [List.isPrefixOf_iff_prefix]
        exact ⟨r, by simp⟩
      have hdrop : (stripChar '/' p ++ '/' :: r).drop ((stripChar '/' p).length + 1) = r := by
        rw [show stripChar '/' p ++ '/' :: r = (stripChar '/' p ++ ['/']) ++ r by simp,
          show (stripChar '/' p).length + 1 = (stripChar '/' p ++ ['/']).length by simp,
          List.drop_left]
      rw [applyPfx, if_neg hC1r, if_neg (by decide), if_pos rfl, hstrip,
        if_pos hC3, hdrop]

/-- Witness for C9 (amended) at a concrete input. -/
theorem claim9_witness :
    (applyPfx "app".data "add" "x86".data).bind
      (fun r1 => applyPfx r1 "remove" "x86".data) = .ok "app".data :=
  claim9_roundtrip "app".data "x86".data (by decide) (by decide) (by decide)

/-! ### Job Store lookup lemmas -/

theorem lookupJob_append_of_fresh (a b : List (String × SyncJob)) (id : String)
    (h : ∀ p ∈ a, p.1 ≠ id) : lookupJob (a ++ b) id = lookupJob b id := by
  induction a with
  | nil => rfl
  | cons p tl ih =>
    rw [List.cons_append, lookupJob, if_neg (h p (List.mem_cons_self _ _))]
    exact ih (fun q hq => h q (List.mem_cons_of_mem _ hq))

theorem lookupJob_mapUpdate_ne (k id : String) (g : SyncJob → SyncJob)
    (l : List (String × SyncJob)) (hki : k ≠ id) :
    lookupJob (mapUpdate k g l) id = lookupJob l id := by
  induction l with
  | nil => rfl
  | cons p tl ih =>
    simp only [mapUpdate, List.map_cons] at *
    by_cases hp : p.1 = k
    · rw [if_pos hp, lookupJob, lookupJob, if_neg (hp ▸ hki), if_neg (hp ▸ hki)]
      exact ih
    · rw [if_neg hp, lookupJob, lookupJob]
      by_cases hpi : p.1 = id
      · rw [if_pos hpi, if_pos hpi]
      · rw [if_neg hpi, if_neg hpi]
        exact ih

theorem lookupJob_mapUpdate_eq (id : String) (g : SyncJob → SyncJob)
    (l : List (String × SyncJob)) :
    lookupJob (mapUpdate id g l) id = (lookupJob l id).map g := by
  induction l with
  | nil => rfl
  | cons p tl ih =>
    simp only [mapUpdate, List.map_cons] at *
    by_cases hp : p.1 = id
    · rw [if_pos hp, lookupJob, if_pos hp, lookupJob, if_pos hp]
      rfl
    · rw [if_neg hp, lookupJob, if_neg hp, lookupJob, if_neg hp]
      exact ih

theorem statusOf_appendLogAt (m : ManagerState) (ts id msg k : String) :
    statusOf (appendLogAt m ts id msg) k = statusOf m k := by
  by_cases h : id = k
  · subst h
    simp only [statusOf, appendLogAt, lookupJob_mapUpdate_eq]
    cases lookupJob m.jobs id <;> rfl
  · simp only [statusOf, appendLogAt, lookupJob_mapUpdate_ne id k _ _ h]

theorem logOnly_refl (m : ManagerState) : LogOnly m m :=
  ⟨fun _ => rfl, rfl, rfl⟩

theorem logOnly_trans {m m2 m3 : ManagerState} (h1 : LogOnly m m2)
    (h2 : LogOnly m2 m3) : LogOnly m m3 :=
  ⟨fun k => (h2.1 k).trans (h1.1 k), h2.2.1.trans h1.2.1, h2.2.2.trans h1.2.2⟩

theorem logOnly_appendLogAt (m : ManagerState) (ts id msg : String) :
    LogOnly m (appendLogAt m ts id msg) :=
  ⟨fun k => statusOf_appendLogAt m ts id msg k, rfl, rfl⟩

theorem logOnly_foldl (xs : List α) (g : ManagerState → α → ManagerState)
    (hg : ∀ mm x, LogOnly mm (g mm x)) :
    ∀ mm : ManagerState, LogOnly mm (xs.foldl g mm) := by
  induction xs with
  | nil => exact fun mm => logOnly_refl mm
  | cons x tl ih =>
    intro mm
    exact logOnly_trans (hg mm x) (ih (g mm x))

theorem statusOf_insertJob_fresh (m : ManagerState) (job : SyncJob)
    (hr : 1 ≤ m.retention) (hfresh : ∀ p ∈ m.jobs, p.1 ≠ job.id) :
    statusOf (insertJob m job) job.id = some job.status := by
  have h0 : (0 : Int) ≤ m.retention := by omega
  have hN : 1 ≤ m.retention.toNat := by omega
  have hjobs := insertJob_jobs_fresh m job h0 hfresh
  have hsplit : keepLast m.retention.toNat (m.jobs ++ [(job.id, job)]) =
      m.jobs.drop ((m.jobs.length + 1) - m.retention.toNat) ++ [(job.id, job)] := by
    rw [keepLast, List.length_append, List.length_cons, List.length_nil,
      List.drop_append_of_le_length (by omega)]
  have hfresh2 : ∀ p ∈ m.jobs.drop ((m.jobs.length + 1) - m.retention.toNat),
      p.1 ≠ job.id := fun p hp => hfresh p (List.mem_of_mem_drop hp)
  rw [statusOf, insertJob]
  show ((lookupJob (evictLoop m.retention (odSet m.jobs job.id job)) job.id).map
    (·.status)) = some job.status
  rw [odSet_of_not_mem _ _ _ hfresh, evictLoop_eq_keepLast _ h0, hsplit,
    lookupJob_append_of_fresh _ _ _ hfresh2, lookupJob, if_pos rfl]
  rfl

theorem createAndStartJob_fields (m : ManagerState) (ts : String) (job : SyncJob)
    (cmds : List (List String)) (cont : Bool)
    (hr : 1 ≤ m.retention) (hfresh : ∀ p ∈ m.jobs, p.1 ≠ job.id) :
    statusOf (createAndStartJob m ts job cmds cont).1 job.id = some job.status ∧
    (createAndStartJob m ts job cmds cont).1.runners =
      m.runners ++ [(job.id, cmds, cont)] ∧
    (createAndStartJob m ts job cmds cont).1.cleaners = m.cleaners ∧
    (createAndStartJob m ts job cmds cont).2 = job := by
  refine ⟨?_, rfl, rfl, rfl⟩
  show statusOf (appendLogAt (insertJob m job) ts job.id _) job.id = some job.status
  rw [statusOf_appendLogAt]
  exact statusOf_insertJob_fresh m job hr hfresh

/-! ### Create-call atomicity (claims C3, C2, C10) -/

theorem logOnly_ite_appendLogAt (c : Prop) [Decidable c] (m : ManagerState)
    (ts id msg : String) :
    LogOnly m (if c then appendLogAt m ts id msg else m) := by
  split
  · exact logOnly_appendLogAt m ts id msg
  · exact logOnly_refl m

theorem createJob_spec (m : ManagerState) (ts newId source_image : String)
    (tr tt : Option String) (hr : 1 ≤ m.retention)
    (hfresh : ∀ p ∈ m.jobs, p.1 ≠ newId) :
    createOutcome m (createJob m ts newId source_image tr tt) := by
  unfold createJob
  cases hsp : splitSourceImage source_image with
  | error e => simp only [hsp]; rfl
  | ok dflt =>
    simp only [hsp]
    refine ⟨rfl, ?_, ?_⟩
    · exact (createAndStartJob_fields m ts _ _ false hr hfresh).1
    · rw [(createAndStartJob_fields m ts _ _ false hr hfresh).2.1,
        (createAndStartJob_fields m ts _ _ false hr hfresh).2.2.2]
      simp [List.any_append]

theorem appendLogAt_runners (m : ManagerState) (ts id msg : String) :
    (appendLogAt m ts id msg).runners = m.runners := rfl

theorem appendLogAt_cleaners (m : ManagerState) (ts id msg : String) :
    (appendLogAt m ts id msg).cleaners = m.cleaners := rfl

theorem statusOf_withCleaners (m : ManagerState)
    (x : List (String × List (String × String))) (k : String) :
    statusOf { m with cleaners := x } k = statusOf m k := rfl

theorem statusOf_ite_appendLogAt (c : Prop) [Decidable c] (a : ManagerState)
    (ts id msg k : String) :
    statusOf (if c then appendLogAt a ts id msg else a) k = statusOf a k := by
  split
  · exact statusOf_appendLogAt a ts id msg k
  · rfl

theorem runners_ite_appendLogAt (c : Prop) [Decidable c] (a : ManagerState)
    (ts id msg : String) :
    (if c then appendLogAt a ts id msg else a).runners = a.runners := by
  split <;> rfl

theorem cleaners_ite_appendLogAt (c : Prop) [Decidable c] (a : ManagerState)
    (ts id msg : String) :
    (if c then appendLogAt a ts id msg else a).cleaners = a.cleaners := by
  split <;> rfl

theorem statusOf_foldl_appendLogAt (xs : List String) (ts id : String)
    (f : String → String) :
    ∀ (a : ManagerState) (k : String),
      statusOf (xs.foldl (fun acc x => appendLogAt acc ts id (f x)) a) k =
        statusOf a k := by
  induction xs with
  | nil => intro a k; rfl
  | cons x tl ih =>
    intro a k
    rw [List.foldl_cons, ih, statusOf_appendLogAt]

theorem runners_foldl_appendLogAt (xs : List String) (ts id : String)
    (f : String → String) :
    ∀ a : ManagerState,
      (xs.foldl (fun acc x => appendLogAt acc ts id (f x)) a).runners =
        a.runners := by
  induction xs with
  | nil => intro a; rfl
  | cons x tl ih =>
    intro a
    rw [List.foldl_cons, ih, appendLogAt_runners]

theorem cleaners_foldl_appendLogAt (xs : List String) (ts id : String)
    (f : String → String) :
    ∀ a : ManagerState,
      (xs.foldl (fun acc x => appendLogAt acc ts id (f x)) a).cleaners =
        a.cleaners := by
  induction xs with
  | nil => intro a; rfl
  | cons x tl ih =>
    intro a
    rw [List.foldl_cons, ih, appendLogAt_cleaners]

set_option maxHeartbeats 1600000 in
theorem createLocalPushJob_spec (m : ManagerState)
    (ts newId machineRaw : String) (image_refs : List String)
    (pm pv am av : String) (trh : Option String) (clt crt : Bool)
    (hr : 1 ≤ m.retention) (hfresh : ∀ p ∈ m.jobs, p.1 ≠ newId) :
    createOutcomeLP m crt newId
      (createLocalPushJob m ts newId machineRaw image_refs pm pv am av
        trh clt crt) := by
  unfold createLocalPushJob
  dsimp only
  repeat' split
  all_goals try rfl
  all_goals refine ⟨rfl, rfl, ?_, ?_, fun hcr => ?_⟩
  all_goals first
    | exact absurd hcr (by assumption)
    | (simp only [statusOf_withCleaners, statusOf_appendLogAt,
         statusOf_ite_appendLogAt, statusOf_foldl_appendLogAt]
       exact (createAndStartJob_fields m ts _ _ false hr hfresh).1)
    | (dsimp only
       simp only [appendLogAt_runners, runners_ite_appendLogAt,
         runners_foldl_appendLogAt]
       rw [(createAndStartJob_fields m ts _ _ false hr hfresh).2.1,
         (createAndStartJob_fields m ts _ _ false hr hfresh).2.2.2]
       simp [List.any_append])
    | (dsimp only
       rw [(createAndStartJob_fields m ts _ _ false hr hfresh).2.2.2]
       simp [List.any_append])

set_option maxHeartbeats 1600000 in
theorem finishRemotePfxJob_spec (m : ManagerState)
    (ts newId registry_host pmn pfn : String) (cst : Bool) (nRepos : Nat)
    (plan : List (List String) × List String × List (String × String) × Nat)
    (hr : 1 ≤ m.retention) (hfresh : ∀ p ∈ m.jobs, p.1 ≠ newId) :
    createOutcome m
      (finishRemotePfxJob m ts newId registry_host pmn pfn cst nRepos plan) := by
  unfold finishRemotePfxJob
  dsimp only
  repeat' split
  all_goals refine ⟨rfl, ?_, ?_⟩
  all_goals first
    | (simp only [statusOf_withCleaners, statusOf_appendLogAt,
         statusOf_ite_appendLogAt, statusOf_foldl_appendLogAt]
       exact (createAndStartJob_fields m ts _ _ true hr hfresh).1)
    | (dsimp only
       simp only [appendLogAt_runners, runners_ite_appendLogAt,
         runners_foldl_appendLogAt]
       rw [(createAndStartJob_fields m ts _ _ true hr hfresh).2.1,
         (createAndStartJob_fields m ts _ _ true hr hfresh).2.2.2]
       simp [List.any_append])

set_option maxHeartbeats 1600000 in
theorem createRemotePfxJob_spec (m : ManagerState) (ts newId : String)
    (tagsOf : String → List String) (repositories : List String)
    (pm2 pv2 : String) (cst : Bool) (trh2 : Option String)
    (hr : 1 ≤ m.retention) (hfresh : ∀ p ∈ m.jobs, p.1 ≠ newId) :
    createOutcome m
      (createRemotePfxJob m ts newId tagsOf repositories pm2 pv2 cst trh2) := by
  unfold createRemotePfxJob
  dsimp only
  repeat' split
  all_goals first
    | rfl
    | exact finishRemotePfxJob_spec m ts newId _ _ _ cst _ _ hr hfresh

theorem runRepositoryDeleteWork_attempts_all (deleteOk : String → Bool)
    (rs : List String) : (runRepositoryDeleteWork deleteOk rs).1 = rs := by
  induction rs with
  | nil => rfl
  | cons r tl ih => simp [runRepositoryDeleteWork, ih]

/-- C3: each create call is atomic with respect to validation failure: a
raised validation error leaves the Job Store, the runner threads and the
cleaner threads exactly as they were (the returned state is the input state),
while a returned job is already recorded in the store with status `running`
and has its runner worker started. -/
theorem claim3_create_atomic (m : ManagerState)
    (ts newId machineRaw source_image : String) (tr tt : Option String)
    (image_refs : List String) (pm pv am av : String) (trh : Option String)
    (clt crt : Bool) (tagsOf : String → List String)
    (repositories : List String) (pm2 pv2 : String) (cst : Bool)
    (trh2 : Option String)
    (hr : 1 ≤ m.retention) (hfresh : ∀ p ∈ m.jobs, p.1 ≠ newId) :
    createOutcome m (createJob m ts newId source_image tr tt) ∧
    createOutcome m (createLocalPushJob m ts newId machineRaw image_refs
      pm pv am av trh clt crt) ∧
    createOutcome m (createRemotePfxJob m ts newId tagsOf repositories
      pm2 pv2 cst trh2) := by
  have hmid : createOutcome m (createLocalPushJob m ts newId machineRaw
      image_refs pm pv am av trh clt crt) := by
    have h := createLocalPushJob_spec m ts newId machineRaw image_refs
      pm pv am av trh clt crt hr hfresh
    rcases hres : createLocalPushJob m ts newId machineRaw image_refs
      pm pv am av trh clt crt with ⟨m2, e⟩
    rw [hres] at h
    cases e with
    | error e2 => exact h
    | ok job => exact ⟨h.2.1, h.2.2.1, h.2.2.2.1⟩
  exact ⟨createJob_spec m ts newId source_image tr tt hr hfresh, hmid,
    createRemotePfxJob_spec m ts newId tagsOf repositories pm2 pv2 cst trh2
      hr hfresh⟩

/-- Witness for C3 at concrete inputs. -/
theorem claim3_witness :
    createOutcome (mkManager "registry.local:5000" (some "http://registry:5000") 120)
      (createJob (mkManager "registry.local:5000" (some "http://registry:5000") 120)
        "12:00:00" "abc123" "nginx:1.27" none none) ∧
    createOutcome (mkManager "registry.local:5000" (some "http://registry:5000") 120)
      (createLocalPushJob
        (mkManager "registry.local:5000" (some "http://registry:5000") 120)
        "12:00:00" "abc123" "x86_64" ["app:1.0"] "add" "x86" "custom" "x86"
        none false true) ∧
    createOutcome (mkManager "registry.local:5000" (some "http://registry:5000") 120)
      (createRemotePfxJob
        (mkManager "registry.local:5000" (some "http://registry:5000") 120)
        "12:00:00" "abc123" (fun _ => []) ["r"] "add" "p" false none) :=
  claim3_create_atomic (mkManager "registry.local:5000" (some "http://registry:5000") 120)
    "12:00:00" "abc123" "x86_64" "nginx:1.27" none none ["app:1.0"]
    "add" "x86" "custom" "x86" none false true (fun _ => []) ["r"] "add" "p"
    false none (by decide) (by decide)

/-- C2 (spec-modelled): `create_repository_delete_job` on a non-empty
repository selection returns a Job recorded running in the store, whose
worker is registered continue-on-error with no shell command plan, and whose
per-repository delete work attempts every repository regardless of
individual failures. -/
theorem claim2_repository_delete (m : ManagerState) (ts newId : String)
    (repositories : List String)
    (hne : (repositories.filter
      (fun item => (!(item == "")) && (!(pyStrip item == "")))).map pyStrip ≠ [])
    (hr : 1 ≤ m.retention) (hfresh : ∀ p ∈ m.jobs, p.1 ≠ newId) :
    (match createRepositoryDeleteJob m ts newId repositories with
     | (_, .error _) => False
     | (m2, .ok jw) =>
        jw.1.status = "running" ∧ statusOf m2 jw.1.id = some "running" ∧
        m2.runners = m.runners ++ [(jw.1.id, [], true)] ∧
        ∀ deleteOk : String → Bool,
          (runRepositoryDeleteWork deleteOk jw.2).1 = jw.2) := by
  unfold createRepositoryDeleteJob
  dsimp only
  rw [if_neg hne]
  refine ⟨rfl, ?_, ?_, ?_⟩
  · exact (createAndStartJob_fields m ts _ _ true hr hfresh).1
  · exact (createAndStartJob_fields m ts _ _ true hr hfresh).2.1
  · intro deleteOk
    exact runRepositoryDeleteWork_attempts_all deleteOk _

/-- Witness for C2 at a concrete input. -/
theorem claim2_witness :
    (match createRepositoryDeleteJob (mkManager "h" none 120) "12:00:00" "j1"
        ["repo1"] with
     | (_, .error _) => False
     | (m2, .ok jw) =>
        jw.1.status = "running" ∧ statusOf m2 jw.1.id = some "running" ∧
        m2.runners = (mkManager "h" none 120).runners ++ [(jw.1.id, [], true)] ∧
        ∀ deleteOk : String → Bool,
          (runRepositoryDeleteWork deleteOk jw.2).1 = jw.2) :=
  claim2_repository_delete (mkManager "h" none 120) "12:00:00" "j1" ["repo1"]
    (by decide) (by decide) (by decide)

/-- C7: the Cleanup Coordinator issues no registry call at all — neither a
digest lookup nor a delete — for a job whose terminal status is `failed`; it
appends the skip log line and stops without touching the job. -/
theorem claim7_skip_failed (apiUrl : String) (targets : List (String × String))
    (oracle : String × String → TagOracle) (st : String) (hst : st = "failed") :
    (cleanupAfterWait apiUrl (some st) targets oracle).calls = [] ∧
    (cleanupAfterWait apiUrl (some st) targets oracle).logMsgs =
      ["[cleanup] skipped because job is not successful."] ∧
    (cleanupAfterWait apiUrl (some st) targets oracle).statusChange = none := by
  subst hst
  simp only [cleanupAfterWait]
  rw [if_pos (by decide)]
  exact ⟨rfl, rfl, rfl⟩

/-- Witness for C7 at a concrete input. -/
theorem claim7_witness :
    (cleanupAfterWait "http://r" (some "failed") [("repo", "tag")]
      (fun _ => ⟨⟨200, "sha"⟩, ⟨200, "sha"⟩, 202⟩)).calls = [] ∧
    (cleanupAfterWait "http://r" (some "failed") [("repo", "tag")]
      (fun _ => ⟨⟨200, "sha"⟩, ⟨200, "sha"⟩, 202⟩)).logMsgs =
      ["[cleanup] skipped because job is not successful."] ∧
    (cleanupAfterWait "http://r" (some "failed") [("repo", "tag")]
      (fun _ => ⟨⟨200, "sha"⟩, ⟨200, "sha"⟩, 202⟩)).statusChange = none :=
  claim7_skip_failed "http://r" [("repo", "tag")]
    (fun _ => ⟨⟨200, "sha"⟩, ⟨200, "sha"⟩, 202⟩) "failed" rfl

/-- C10: a local-push job created with `cleanup_registry_source_tag=true`
registers its Cleanup Coordinator even when `registry_api_url` is empty, and
when the coordinator later observes the job `success` it only appends the
"cannot cleanup" log line: no registry call is issued and the job's status
and error are left unchanged. -/
theorem claim10_cleanup_without_api (m : ManagerState)
    (ts newId machineRaw : String) (image_refs : List String)
    (pm pv am av : String) (trh : Option String) (clt : Bool)
    (hr : 1 ≤ m.retention) (hfresh : ∀ p ∈ m.jobs, p.1 ≠ newId)
    (hapi : m.registry_api_url = "") :
    (match createLocalPushJob m ts newId machineRaw image_refs pm pv am av
        trh clt true with
     | (m2, .ok job) => (m2.cleaners.any (fun c => c.1 = job.id)) = true
     | (_, .error _) => True) ∧
    ∀ (targets : List (String × String)) (oracle : String × String → TagOracle),
      cleanupAfterWait m.registry_api_url (some "success") targets oracle =
        ⟨["[cleanup] registry_api_url is empty, cannot cleanup."], [], none⟩ := by
  constructor
  · have h := createLocalPushJob_spec m ts newId machineRaw image_refs
      pm pv am av trh clt true hr hfresh
    rcases hres : createLocalPushJob m ts newId machineRaw image_refs
      pm pv am av trh clt true with ⟨m2, e⟩
    rw [hres] at h
    cases e with
    | error e2 => trivial
    | ok job => exact h.2.2.2.2 rfl
  · intro targets oracle
    rw [hapi]
    simp [cleanupAfterWait]

/-- Witness for C10 at concrete inputs. -/
theorem claim10_witness :
    (match createLocalPushJob (mkManager "registry.local:5000" none 120)
        "12:00:00" "abc123" "x86_64" ["app:1.0"] "none" "" "none" ""
        none false true with
     | (m2, .ok job) => (m2.cleaners.any (fun c => c.1 = job.id)) = true
     | (_, .error _) => True) ∧
    ∀ (targets : List (String × String)) (oracle : String × String → TagOracle),
      cleanupAfterWait (mkManager "registry.local:5000" none 120).registry_api_url
        (some "success") targets oracle =
        ⟨["[cleanup] registry_api_url is empty, cannot cleanup."], [], none⟩ :=
  claim10_cleanup_without_api (mkManager "registry.local:5000" none 120)
    "12:00:00" "abc123" "x86_64" ["app:1.0"] "none" "" "none" "" none false
    (by decide) (by decide) (by decide)

/-! ### Terminal-status stability (claim C1) -/

theorem mem_of_lookupJob {l : List (String × SyncJob)} {id : String}
    {j : SyncJob} (h : lookupJob l id = some j) : (id, j) ∈ l := by
  induction l with
  | nil => cases h
  | cons p tl ih =>
    rw [lookupJob] at h
    by_cases hp : p.1 = id
    · rw [if_pos hp] at h
      obtain ⟨p1, p2⟩ := p
      obtain rfl : p2 = j := Option.some.inj h
      obtain rfl : p1 = id := hp
      exact List.mem_cons_self _ _
    · rw [if_neg hp] at h
      exact List.mem_cons_of_mem _ (ih h)

theorem lookupJob_of_mem_nodup {l : List (String × SyncJob)} {id : String}
    {j : SyncJob} (hnd : (l.map Prod.fst).Nodup) (h : (id, j) ∈ l) :
    lookupJob l id = some j := by
  induction l with
  | nil => cases h
  | cons p tl ih =>
    rw [List.map_cons, List.nodup_cons] at hnd
    rw [lookupJob]
    rcases List.mem_cons.mp h with he | htl
    · rw [if_pos (by rw [← he])]
      rw [← he]
    · by_cases hp : p.1 = id
      · exact absurd (hp ▸ List.mem_map_of_mem Prod.fst htl) hnd.1
      · rw [if_neg hp]
        exact ih hnd.2 htl

theorem evictLoop_sublist (r : Int) (l : List (String × SyncJob)) :
    (evictLoop r l).Sublist l := by
  induction l with
  | nil => exact List.Sublist.refl _
  | cons p tl ih =>
    rw [evictLoop]
    by_cases hc : r < (((p :: tl).length : Nat) : Int)
    · rw [if_pos hc]
      exact ih.trans (List.sublist_cons_self p tl)
    · rw [if_neg hc]

theorem mem_evictLoop {r : Int} {l : List (String × SyncJob)}
    {q : String × SyncJob} (h : q ∈ evictLoop r l) : q ∈ l :=
  (evictLoop_sublist r l).subset h

theorem mem_mapUpdate {k : String} {g : SyncJob → SyncJob}
    {l : List (String × SyncJob)} {q : String × SyncJob}
    (h : q ∈ mapUpdate k g l) :
    ∃ p ∈ l, q.1 = p.1 ∧ (q.2 = p.2 ∨ (q.1 = k ∧ q.2 = g p.2)) := by
  rw [mapUpdate, List.mem_map] at h
  obtain ⟨p, hp, he⟩ := h
  by_cases hc : p.1 = k
  · rw [if_pos hc] at he
    exact ⟨p, hp, by rw [← he], Or.inr ⟨by rw [← he]; exact hc, by rw [← he]⟩⟩
  · rw [if_neg hc] at he
    exact ⟨p, hp, by rw [← he], Or.inl (by rw [← he])⟩

theorem keys_mapUpdate (k : String) (g : SyncJob → SyncJob)
    (l : List (String × SyncJob)) :
    (mapUpdate k g l).map Prod.fst = l.map Prod.fst := by
  induction l with
  | nil => rfl
  | cons p tl ih =>
    simp only [mapUpdate, List.map_cons] at *
    by_cases hc : p.1 = k
    · rw [if_pos hc, ih]
    · rw [if_neg hc, ih]

theorem statusOf_updateJobStatus_eq (m : ManagerState) (id st : String)
    (e : Option String) :
    statusOf (updateJobStatus m id st e) id = (statusOf m id).map (fun _ => st) := by
  simp only [statusOf, updateJobStatus, lookupJob_mapUpdate_eq]
  cases lookupJob m.jobs id <;> rfl

theorem statusOf_updateJobStatus_ne (m : ManagerState) (id2 id st : String)
    (e : Option String) (h : id2 ≠ id) :
    statusOf (updateJobStatus m id2 st e) id = statusOf m id := by
  simp only [statusOf, updateJobStatus, lookupJob_mapUpdate_ne _ _ _ _ h]

theorem statusOf_appendLogsAt (lines : List (String × String)) (id k : String) :
    ∀ m : ManagerState, statusOf (appendLogsAt m id lines) k = statusOf m k := by
  induction lines with
  | nil => intro m; rfl
  | cons t tl ih =>
    intro m
    show statusOf (appendLogsAt (appendLogAt m t.1 id t.2) id tl) k = statusOf m k
    rw [ih, statusOf_appendLogAt]

theorem keys_appendLogAt (m : ManagerState) (ts id msg : String) :
    (appendLogAt m ts id msg).jobs.map Prod.fst = m.jobs.map Prod.fst := by
  simp only [appendLogAt]
  exact keys_mapUpdate _ _ _

theorem keys_updateJobStatus (m : ManagerState) (id st : String)
    (e : Option String) :
    (updateJobStatus m id st e).jobs.map Prod.fst = m.jobs.map Prod.fst := by
  simp only [updateJobStatus]
  exact keys_mapUpdate _ _ _

theorem keys_appendLogsAt (lines : List (String × String)) (id : String) :
    ∀ m : ManagerState,
      (appendLogsAt m id lines).jobs.map Prod.fst = m.jobs.map Prod.fst := by
  induction lines with
  | nil => intro m; rfl
  | cons t tl ih =>
    intro m
    show (appendLogsAt (appendLogAt m t.1 id t.2) id tl).jobs.map Prod.fst = _
    rw [ih, keys_appendLogAt]

theorem mem_appendLogAt {m : ManagerState} {ts id msg : String}
    {q : String × SyncJob} (h : q ∈ (appendLogAt m ts id msg).jobs) :
    ∃ p ∈ m.jobs, q.1 = p.1 ∧ q.2.status = p.2.status := by
  simp only [appendLogAt] at h
  obtain ⟨p, hp, hk, hv⟩ := mem_mapUpdate h
  rcases hv with hv | hv
  · exact ⟨p, hp, hk, by rw [hv]⟩
  · exact ⟨p, hp, hk, by rw [hv.2]⟩

theorem mem_appendLogsAt {lines : List (String × String)} {id : String} :
    ∀ {m : ManagerState} {q : String × SyncJob},
      q ∈ (appendLogsAt m id lines).jobs →
      ∃ p ∈ m.jobs, q.1 = p.1 ∧ q.2.status = p.2.status := by
  induction lines with
  | nil => exact fun h => ⟨_, h, rfl, rfl⟩
  | cons t tl ih =>
    intro m q h
    obtain ⟨p, hp, hk, hs⟩ := ih h
    obtain ⟨p0, hp0, hk0, hs0⟩ := mem_appendLogAt hp
    exact ⟨p0, hp0, hk.trans hk0, hs.trans hs0⟩

theorem createEffect_jobs (s : SysState) (job : SyncJob)
    (cmds : List (List String)) (cont : Bool)
    (cleanup : Option (List (String × String))) (ts : String) :
    (createEffect s job cmds cont cleanup ts).m.jobs =
      (appendLogAt (insertJob s.m job) ts job.id
        ("[init] type=" ++ job.job_type ++ " source=" ++ job.source_image ++
          " target=" ++ job.target_image)).jobs := by
  cases cleanup <;> rfl

theorem createEffect_usedIds (s : SysState) (job : SyncJob)
    (cmds : List (List String)) (cont : Bool)
    (cleanup : Option (List (String × String))) (ts : String) :
    (createEffect s job cmds cont cleanup ts).usedIds = job.id :: s.usedIds := by
  cases cleanup <;> rfl

theorem createEffect_runnerDone (s : SysState) (job : SyncJob)
    (cmds : List (List String)) (cont : Bool)
    (cleanup : Option (List (String × String))) (ts : String) :
    (createEffect s job cmds cont cleanup ts).runnerDone = s.runnerDone := by
  cases cleanup <;> rfl

theorem appendLogAt_jobs (m : ManagerState) (ts id msg : String) :
    (appendLogAt m ts id msg).jobs =
      mapUpdate id
        (fun j => { j with logs := appendCapped j.logs (ts ++ " " ++ msg) })
        m.jobs := rfl

theorem updateJobStatus_jobs (m : ManagerState) (id st : String)
    (e : Option String) :
    (updateJobStatus m id st e).jobs =
      mapUpdate id (fun j => { j with status := st, error := e }) m.jobs := rfl

theorem insertJob_jobs (m : ManagerState) (job : SyncJob) :
    (insertJob m job).jobs =
      evictLoop m.retention (odSet m.jobs job.id job) := rfl

theorem lookupJob_insertJob_of_ne (m : ManagerState) (job : SyncJob)
    (id : String) (hnd : (m.jobs.map Prod.fst).Nodup)
    (hfr : ∀ p ∈ m.jobs, p.1 ≠ job.id) (hne : job.id ≠ id) (j : SyncJob)
    (h : lookupJob (insertJob m job).jobs id = some j) :
    lookupJob m.jobs id = some j := by
  rw [insertJob_jobs, odSet_of_not_mem _ _ _ hfr] at h
  rcases List.mem_append.mp (mem_evictLoop (mem_of_lookupJob h)) with hin | hsing
  · exact lookupJob_of_mem_nodup hnd hin
  · rw [List.mem_singleton, Prod.mk.injEq] at hsing
    exact absurd hsing.1.symm hne

theorem statusOf_createEffect_ne (s : SysState) (job : SyncJob)
    (cmds : List (List String)) (cont : Bool)
    (cleanup : Option (List (String × String))) (ts : String) (id : String)
    (hnd : (s.m.jobs.map Prod.fst).Nodup)
    (hfr : ∀ p ∈ s.m.jobs, p.1 ≠ job.id) (hne : job.id ≠ id) (x : String)
    (h : statusOf (createEffect s job cmds cont cleanup ts).m id = some x) :
    statusOf s.m id = some x := by
  simp only [statusOf] at h ⊢
  rw [createEffect_jobs, appendLogAt_jobs,
    lookupJob_mapUpdate_ne _ _ _ _ hne] at h
  cases hl : lookupJob (insertJob s.m job).jobs id with
  | none => rw [hl] at h; cases h
  | some j =>
    rw [hl] at h
    rw [lookupJob_insertJob_of_ne s.m job id hnd hfr hne j hl]
    exact h

theorem sysInv_init (push : String) (api : Option String) (R : Int) :
    SysInv (initState push api R) := by
  refine ⟨?_, ?_, ?_⟩ <;> simp [SysInv, initState, mkManager]

theorem sysInv_step {s : SysState} {l : StepLabel} {s2 : SysState}
    (hInv : SysInv s) (hstep : SysStep s l s2) : SysInv s2 := by
  obtain ⟨h1, h2, h3⟩ := hInv
  cases hstep with
  | create job cmds cont cleanup ts hfresh hrun =>
    have hfr : ∀ p ∈ s.m.jobs, p.1 ≠ job.id := fun p hp he => hfresh (he ▸ h1 p hp)
    have hjobs : (createEffect s job cmds cont cleanup ts).m.jobs =
        mapUpdate job.id
          (fun j => { j with logs := appendCapped j.logs (ts ++ " " ++
            ("[init] type=" ++ job.job_type ++ " source=" ++ job.source_image ++
              " target=" ++ job.target_image)) })
          (evictLoop s.m.retention (s.m.jobs ++ [(job.id, job)])) := by
      rw [createEffect_jobs, appendLogAt_jobs, insertJob_jobs,
        odSet_of_not_mem _ _ _ hfr]
    refine ⟨?_, ?_, ?_⟩
    · intro p hp
      rw [createEffect_usedIds]
      rw [hjobs] at hp
      obtain ⟨p0, hp0, hk, _⟩ := mem_mapUpdate hp
      rcases List.mem_append.mp (mem_evictLoop hp0) with hin | hsing
      · exact List.mem_cons_of_mem _ (hk ▸ h1 p0 hin)
      · rw [List.mem_singleton] at hsing
        rw [hk, hsing]
        exact List.mem_cons_self _ _
    · intro p hp
      rw [createEffect_runnerDone]
      rw [hjobs] at hp
      obtain ⟨p0, hp0, hk, hv⟩ := mem_mapUpdate hp
      have hstat : p.2.status = p0.2.status := by
        rcases hv with hv | hv
        · rw [hv]
        · rw [hv.2]
      rcases List.mem_append.mp (mem_evictLoop hp0) with hin | hsing
      · rcases h2 p0 hin with hr | hd
        · exact Or.inl (hstat.trans hr)
        · exact Or.inr (hk ▸ hd)
      · rw [List.mem_singleton] at hsing
        refine Or.inl (hstat.trans ?_)
        rw [hsing]
        exact hrun
    · rw [hjobs, keys_mapUpdate]
      apply List.Nodup.sublist ((evictLoop_sublist _ _).map Prod.fst)
      rw [List.map_append, List.nodup_append]
      refine ⟨h3, List.nodup_singleton _, ?_⟩
      intro a ha hb
      rw [List.map_singleton, List.mem_singleton] at hb
      obtain ⟨p, hp, he⟩ := List.mem_map.mp ha
      exact hfr p hp (he.trans hb)
  | runnerFinish id ok err hdone =>
    refine ⟨?_, ?_, ?_⟩
    · intro p hp
      rw [updateJobStatus_jobs] at hp
      obtain ⟨p0, hp0, hk, _⟩ := mem_mapUpdate hp
      exact hk ▸ h1 p0 hp0
    · intro p hp
      rw [updateJobStatus_jobs] at hp
      obtain ⟨p0, hp0, hk, hv⟩ := mem_mapUpdate hp
      rcases hv with hv | hv
      · rcases h2 p0 hp0 with hr | hd
        · exact Or.inl (by rw [hv]; exact hr)
        · exact Or.inr (List.mem_cons_of_mem _ (hk ▸ hd))
      · refine Or.inr ?_
        rw [hv.1]
        exact List.mem_cons_self _ _
    · rw [updateJobStatus_jobs, keys_mapUpdate]
      exact h3
  | logAppend ts id msg =>
    refine ⟨?_, ?_, ?_⟩
    · intro p hp
      obtain ⟨p0, hp0, hk, _⟩ := mem_appendLogAt hp
      exact hk ▸ h1 p0 hp0
    · intro p hp
      obtain ⟨p0, hp0, hk, hs⟩ := mem_appendLogAt hp
      rcases h2 p0 hp0 with hr | hd
      · exact Or.inl (hs.trans hr)
      · exact Or.inr (hk ▸ hd)
    · rw [keys_appendLogAt]
      exact h3
  | cleanupGone id hcl hnd hgone => exact ⟨h1, h2, h3⟩
  | cleanupSkip ts id st hcl hnd hst hrn hsc =>
    refine ⟨?_, ?_, ?_⟩
    · intro p hp
      obtain ⟨p0, hp0, hk, _⟩ := mem_appendLogAt hp
      exact hk ▸ h1 p0 hp0
    · intro p hp
      obtain ⟨p0, hp0, hk, hs⟩ := mem_appendLogAt hp
      rcases h2 p0 hp0 with hr | hd
      · exact Or.inl (hs.trans hr)
      · exact Or.inr (hk ▸ hd)
    · rw [keys_appendLogAt]
      exact h3
  | cleanupNoApi ts id hcl hnd hst hapi =>
    refine ⟨?_, ?_, ?_⟩
    · intro p hp
      obtain ⟨p0, hp0, hk, _⟩ := mem_appendLogAt hp
      exact hk ▸ h1 p0 hp0
    · intro p hp
      obtain ⟨p0, hp0, hk, hs⟩ := mem_appendLogAt hp
      rcases h2 p0 hp0 with hr | hd
      · exact Or.inl (hs.trans hr)
      · exact Or.inr (hk ▸ hd)
    · rw [keys_appendLogAt]
      exact h3
  | cleanupOk id lines hcl hnd hst hapi =>
    refine ⟨?_, ?_, ?_⟩
    · intro p hp
      obtain ⟨p0, hp0, hk, _⟩ := mem_appendLogsAt hp
      exact hk ▸ h1 p0 hp0
    · intro p hp
      obtain ⟨p0, hp0, hk, hs⟩ := mem_appendLogsAt hp
      rcases h2 p0 hp0 with hr | hd
      · exact Or.inl (hs.trans hr)
      · exact Or.inr (hk ▸ hd)
    · rw [keys_appendLogsAt]
      exact h3
  | cleanupFail id prior ts exc hcl hnd hst hapi =>
    have hdone : id ∈ s.runnerDone := by
      cases hl : lookupJob s.m.jobs id with
      | none => rw [statusOf, hl] at hst; cases hst
      | some j =>
        have hmem := mem_of_lookupJob hl
        rcases h2 (id, j) hmem with hr | hd
        · rw [statusOf, hl] at hst
          have hjs : j.status = "success" := Option.some.inj hst
          rw [hjs] at hr
          exact absurd hr (by decide)
        · exact hd
    refine ⟨?_, ?_, ?_⟩
    · intro p hp
      rw [updateJobStatus_jobs] at hp
      obtain ⟨p0, hp0, hk, _⟩ := mem_mapUpdate hp
      obtain ⟨p1, hp1, hk1, _⟩ := mem_appendLogAt hp0
      obtain ⟨p2, hp2, hk2, _⟩ := mem_appendLogsAt hp1
      exact (hk.trans (hk1.trans hk2)) ▸ h1 p2 hp2
    · intro p hp
      rw [updateJobStatus_jobs] at hp
      obtain ⟨p0, hp0, hk, hv⟩ := mem_mapUpdate hp
      obtain ⟨p1, hp1, hk1, hs1⟩ := mem_appendLogAt hp0
      obtain ⟨p2, hp2, hk2, hs2⟩ := mem_appendLogsAt hp1
      rcases hv with hv | hv
      · rcases h2 p2 hp2 with hr | hd
        · exact Or.inl (by rw [hv, hs1, hs2]; exact hr)
        · exact Or.inr ((hk.trans (hk1.trans hk2)) ▸ hd)
      · refine Or.inr ?_
        rw [hv.1]
        exact hdone
    · rw [updateJobStatus_jobs, keys_mapUpdate, keys_appendLogAt,
        keys_appendLogsAt]
      exact h3

theorem sysInv_of_steps {push : String} {api : Option String} {R : Int}
    {s : SysState} (h : Steps (initState push api R) s) : SysInv s := by
  induction h with
  | refl => exact sysInv_init push api R
  | tail hab hbc ih =>
    obtain ⟨l, hstep⟩ := hbc
    exact sysInv_step ih hstep

theorem failed_stable_step {s : SysState} {l : StepLabel} {s2 : SysState}
    (hInv : SysInv s) (hstep : SysStep s l s2) (id : String)
    (hused : id ∈ s.usedIds)
    (hst : statusOf s.m id = some "failed" ∨ statusOf s.m id = none) :
    id ∈ s2.usedIds ∧
      (statusOf s2.m id = some "failed" ∨ statusOf s2.m id = none) := by
  obtain ⟨h1, h2, h3⟩ := hInv
  cases hstep with
  | create job cmds cont cleanup ts hfresh hrun =>
    have hne : job.id ≠ id := fun he => hfresh (he ▸ hused)
    have hfr : ∀ p ∈ s.m.jobs, p.1 ≠ job.id := fun p hp he => hfresh (he ▸ h1 p hp)
    refine ⟨by rw [createEffect_usedIds]; exact List.mem_cons_of_mem _ hused, ?_⟩
    cases hnew : statusOf (createEffect s job cmds cont cleanup ts).m id with
    | none => exact Or.inr rfl
    | some x =>
      have hold := statusOf_createEffect_ne s job cmds cont cleanup ts id h3
        hfr hne x hnew
      rcases hst with hf | hn
      · have hx : x = "failed" := Option.some.inj (hold.symm.trans hf)
        exact Or.inl (by rw [hx])
      · rw [hn] at hold
        cases hold
  | runnerFinish id2 ok err hdone =>
    refine ⟨hused, ?_⟩
    by_cases hid : id2 = id
    · subst hid
      rcases hst with hf | hn
      · exfalso
        cases hl : lookupJob s.m.jobs id2 with
        | none => rw [statusOf, hl] at hf; cases hf
        | some j =>
          rcases h2 (id2, j) (mem_of_lookupJob hl) with hr | hd
          · rw [statusOf, hl] at hf
            have hjs : j.status = "failed" := Option.some.inj hf
            have hr2 : j.status = "running" := hr
            rw [hjs] at hr2
            exact absurd hr2 (by decide)
          · exact hdone hd
      · refine Or.inr ?_
        rw [statusOf_updateJobStatus_eq, hn]
        rfl
    · rw [statusOf_updateJobStatus_ne _ _ _ _ _ hid]
      exact hst
  | logAppend ts id2 msg =>
    exact ⟨hused, by rw [statusOf_appendLogAt]; exact hst⟩
  | cleanupGone id2 hcl hnd hgone => exact ⟨hused, hst⟩
  | cleanupSkip ts id2 st hcl hnd hst2 hrn hsc =>
    exact ⟨hused, by rw [statusOf_appendLogAt]; exact hst⟩
  | cleanupNoApi ts id2 hcl hnd hst2 hapi =>
    exact ⟨hused, by rw [statusOf_appendLogAt]; exact hst⟩
  | cleanupOk id2 lines hcl hnd hst2 hapi =>
    exact ⟨hused, by rw [statusOf_appendLogsAt]; exact hst⟩
  | cleanupFail id2 prior ts exc hcl hnd hst2 hapi =>
    refine ⟨hused, ?_⟩
    by_cases hid : id2 = id
    · subst hid
      rcases hst with hf | hn
      · exact absurd (Option.some.inj (hst2.symm.trans hf)) (by decide)
      · rw [hn] at hst2
        cases hst2
    · rw [statusOf_updateJobStatus_ne _ _ _ _ _ hid, statusOf_appendLogAt,
        statusOf_appendLogsAt]
      exact hst

theorem failed_package {s s2 : SysState} (hsteps : Steps s s2) (id : String) :
    (SysInv s ∧ id ∈ s.usedIds ∧
      (statusOf s.m id = some "failed" ∨ statusOf s.m id = none)) →
    (SysInv s2 ∧ id ∈ s2.usedIds ∧
      (statusOf s2.m id = some "failed" ∨ statusOf s2.m id = none)) := by
  induction hsteps with
  | refl => exact fun h => h
  | tail hab hbc ih =>
    intro h
    obtain ⟨hInvB, husedB, hstB⟩ := ih h
    obtain ⟨l, hstep⟩ := hbc
    obtain ⟨husedC, hstC⟩ := failed_stable_step hInvB hstep id husedB hstB
    exact ⟨sysInv_step hInvB hstep, husedC, hstC⟩

theorem success_step {s : SysState} {l : StepLabel} {s2 : SysState}
    (hInv : SysInv s) (hstep : SysStep s l s2) (id : String)
    (hst : statusOf s.m id = some "success") :
    statusOf s2.m id = some "success" ∨ statusOf s2.m id = none ∨
      ((∃ prior ts exc, l = StepLabel.cleanupFail id prior ts exc) ∧
        statusOf s2.m id = some "failed") := by
  obtain ⟨h1, h2, h3⟩ := hInv
  cases hl : lookupJob s.m.jobs id with
  | none => rw [statusOf, hl] at hst; cases hst
  | some j =>
  have hmem := mem_of_lookupJob hl
  have hused : id ∈ s.usedIds := h1 (id, j) hmem
  cases hstep with
  | create job cmds cont cleanup ts hfresh hrun =>
    have hne : job.id ≠ id := fun he => hfresh (he ▸ hused)
    have hfr : ∀ p ∈ s.m.jobs, p.1 ≠ job.id := fun p hp he => hfresh (he ▸ h1 p hp)
    cases hnew : statusOf (createEffect s job cmds cont cleanup ts).m id with
    | none => exact Or.inr (Or.inl rfl)
    | some x =>
      have hold := statusOf_createEffect_ne s job cmds cont cleanup ts id h3
        hfr hne x hnew
      have hx : x = "success" := Option.some.inj (hold.symm.trans hst)
      exact Or.inl (by rw [hx])
  | runnerFinish id2 ok err hdone =>
    by_cases hid : id2 = id
    · subst hid
      exfalso
      rcases h2 (id2, j) hmem with hr | hd
      · rw [statusOf, hl] at hst
        have hjs : j.status = "success" := Option.some.inj hst
        have hr2 : j.status = "running" := hr
        rw [hjs] at hr2
        exact absurd hr2 (by decide)
      · exact hdone hd
    · exact Or.inl (by rw [statusOf_updateJobStatus_ne _ _ _ _ _ hid]; exact hst)
  | logAppend ts id2 msg =>
    exact Or.inl (by rw [statusOf_appendLogAt]; exact hst)
  | cleanupGone id2 hcl hnd hgone => exact Or.inl hst
  | cleanupSkip ts id2 st hcl hnd hst2 hrn hsc =>
    exact Or.inl (by rw [statusOf_appendLogAt]; exact hst)
  | cleanupNoApi ts id2 hcl hnd hst2 hapi =>
    exact Or.inl (by rw [statusOf_appendLogAt]; exact hst)
  | cleanupOk id2 lines hcl hnd hst2 hapi =>
    exact Or.inl (by rw [statusOf_appendLogsAt]; exact hst)
  | cleanupFail id2 prior ts exc hcl hnd hst2 hapi =>
    by_cases hid : id2 = id
    · subst hid
      refine Or.inr (Or.inr ⟨⟨prior, ts, exc, rfl⟩, ?_⟩)
      rw [statusOf_updateJobStatus_eq]
      have hmid : statusOf
          (appendLogAt (appendLogsAt s.m id2 prior) ts id2
            ("[cleanup] registry cleanup failed: " ++ exc)) id2 =
          some "success" := by
        rw [statusOf_appendLogAt, statusOf_appendLogsAt]
        exact hst
      rw [hmid]
      rfl
    · exact Or.inl (by
        rw [statusOf_updateJobStatus_ne _ _ _ _ _ hid, statusOf_appendLogAt,
          statusOf_appendLogsAt]
        exact hst)

/-- C1 (amended): over the system step relation, a job whose status is
`failed` keeps status `failed` for as long as it remains in the Job Store,
under every reachable continuation; a job whose status is `success` keeps it
under every step except that the job may be evicted by retention, or — the
one exception the code contains (lines 514-516) — the Cleanup Coordinator's
failure path may downgrade that job, and only that job, from `success` to
`failed`. -/
theorem claim1_terminal_stability (push : String) (api : Option String)
    (R : Int) (s s2 s3 : SysState) (id : String) (l : StepLabel)
    (hreach : Steps (initState push api R) s) :
    (Steps s s2 → statusOf s.m id = some "failed" →
      ∀ j, lookupJob s2.m.jobs id = some j → j.status = "failed") ∧
    (SysStep s l s3 → statusOf s.m id = some "success" →
      statusOf s3.m id = some "success" ∨ statusOf s3.m id = none ∨
      ((∃ prior ts exc, l = StepLabel.cleanupFail id prior ts exc) ∧
        statusOf s3.m id = some "failed")) := by
  have hInv := sysInv_of_steps hreach
  constructor
  · intro hsteps hfail j hj
    have hused : id ∈ s.usedIds := by
      cases hl2 : lookupJob s.m.jobs id with
      | none => rw [statusOf, hl2] at hfail; cases hfail
      | some j0 => exact hInv.1 (id, j0) (mem_of_lookupJob hl2)
    have hpack := failed_package hsteps id ⟨hInv, hused, Or.inl hfail⟩
    rcases hpack.2.2 with hf | hn
    · rw [statusOf, hj] at hf
      exact Option.some.inj hf
    · rw [statusOf, hj] at hn
      cases hn
  · intro hstep hsucc
    exact success_step hInv hstep id hsucc

/-- C1 counterexample: the claim as stated is false.  From a fresh manager, a
job "a" (with cleanup requested) is created and its runner finishes with
`success`; one further reachable step — the Cleanup Coordinator's failure
path, lines 514-516 of sync_jobs.py — changes that terminal `success` into
`failed`. -/
theorem claim1_counterexample :
    Steps cexS0 cexS2 ∧ statusOf cexS2.m "a" = some "success" ∧
    Step cexS2 cexS3 ∧ statusOf cexS3.m "a" = some "failed" := by
  have hs1 : Step cexS0 cexS1 :=
    ⟨_, SysStep.create cexS0 cexJob [] false (some [("r", "t")]) "T"
      (by decide) rfl⟩
  have hs2 : Step cexS1 cexS2 :=
    ⟨_, SysStep.runnerFinish cexS1 "a" true "" (by decide)⟩
  have hs3 : Step cexS2 cexS3 :=
    ⟨_, SysStep.cleanupFail cexS2 "a" [] "T2" "boom" (by decide)
      (by decide) (by decide) (by decide)⟩
  exact ⟨(Relation.ReflTransGen.single hs1).tail hs2, by decide, hs3, by decide⟩

/-- Witness for C1 (amended) at the concrete counterexample trace: in the
state reached after the cleanup downgrade, job "a" is stored with status
`failed`, and the stability theorem pins it there. -/
theorem claim1_witness :
    lookupJob cexS3.m.jobs "a" = some
      ⟨"a", "src", "tgt", "mirror", 1, "failed",
        ["T [init] type=mirror source=src target=tgt",
         "T2 [cleanup] registry cleanup failed: boom"],
        some "Registry cleanup failed: boom"⟩ ∧
    SyncJob.status
      ⟨"a", "src", "tgt", "mirror", 1, "failed",
        ["T [init] type=mirror source=src target=tgt",
         "T2 [cleanup] registry cleanup failed: boom"],
        some "Registry cleanup failed: boom"⟩ = "failed" := by
  have hs1 : Step cexS0 cexS1 :=
    ⟨_, SysStep.create cexS0 cexJob [] false (some [("r", "t")]) "T"
      (by decide) rfl⟩
  have hs2 : Step cexS1 cexS2 :=
    ⟨_, SysStep.runnerFinish cexS1 "a" true "" (by decide)⟩
  have hs3 : Step cexS2 cexS3 :=
    ⟨_, SysStep.cleanupFail cexS2 "a" [] "T2" "boom" (by decide)
      (by decide) (by decide) (by decide)⟩
  have hreach3 : Steps (initState "h" (some "http://r") 20) cexS3 :=
    ((Relation.ReflTransGen.single hs1).tail hs2).tail hs3
  constructor
  · decide
  · exact (claim1_terminal_stability "h" (some "http://r") 20 cexS3 cexS3 cexS3
      "a" (StepLabel.logAppend "" "" "") hreach3).1 Relation.ReflTransGen.refl
      (by decide) _ (by decide)
